import Mathlib

/-!
Verification of the CS4440 Project 3 storage stack: a simulated block-device
service (disk server) and a flat filesystem service layered on top of it.

The definitions below are a shallow embedding of the C sources:
 * the disk server (`disk_server_v2.c`, embedded in the repository's Makefile
   document): geometry validation, seek simulation, the `R` and `W` handlers;
 * the filesystem server (`fs_server.c`): on-disk layout, superblock, FAT,
   directory table, and the `F`/`C`/`D`/`R`/`W` command handlers.

Bytes are modelled as `Nat` values, sectors as 128-byte `List Nat`, the disk
image as a function from linear sector index to sector contents, and machine
integers (`uint32_t`) as `Nat` with explicit reduction modulo `2 ^ 32` at the
points where C performs 32-bit arithmetic.  Replies that the servers send on
the wire are modelled as byte lists (for example `[48, 10]` is the two-byte
reply consisting of the character zero and a newline).
-/

namespace DiskSrv

/-- Disk geometry and seek timing, from the disk server's command line:
`g_cyl` cylinders, `g_sec` sectors per cylinder, `g_track_us` microseconds of
track-to-track seek time. -/
structure Geom where
  C : Nat
  S : Nat
  T : Nat

/-- A disk image: linear sector index to sector contents (128 bytes each in
any state actually produced by the server). -/
def Img : Type := Nat → List Nat

/-- Mutable disk-server state: the mmapped image and the arm position
`g_head_cyl` (a C `long`, hence an integer). -/
structure DState where
  img : Img
  head : Int

/-- Fresh disk-server state over a newly created backing file: `ftruncate`
produces an all-zero image and the arm starts at cylinder 0. -/
def initDisk : DState :=
  { img := fun _ => List.replicate 128 0, head := 0 }

/-- Embeds `validate_cs`: cylinder and sector must be inside the geometry. -/
def validate_cs (g : Geom) (c s : Int) : Bool :=
  decide (0 ≤ c) && decide (c < (g.C : Int)) && decide (0 ≤ s) && decide (s < (g.S : Int))

/-- Embeds `sleep_tracks`: the simulated seek delay in microseconds is the
number of tracks travelled times the configured track time. -/
def sleep_tracks (T : Nat) (fromc toc : Int) : Nat :=
  (toc - fromc).natAbs * T

/-- Embeds `blk_ptr`: linear index of the sector at cylinder `c`, sector `s`. -/
def blk_idx (g : Geom) (c s : Int) : Nat :=
  c.toNat * g.S + s.toNat

/-- Embeds `handle_R`.  Returns the new state, the bytes sent to the client
(either the single byte 48 for an invalid address, or 49 followed by the 128
sector bytes), and the number of microseconds slept for the seek. -/
def handle_R (g : Geom) (st : DState) (c s : Int) : DState × List Nat × Nat :=
  if ¬ validate_cs g c s then
    (st, [48], 0)
  else
    let wait := sleep_tracks g.T st.head c
    (⟨st.img, c⟩, 49 :: st.img (blk_idx g c s), wait)

/-- Embeds `handle_W`.  `payload` is the stream of raw bytes available from
the client after the command line.  Returns the new state, the reply bytes,
the number of payload bytes consumed from the stream before replying, and the
seek delay.  On an invalid address or length the reply is sent before any
payload byte is read. -/
def handle_W (g : Geom) (st : DState) (c s l : Int) (payload : List Nat) :
    DState × List Nat × Nat × Nat :=
  if ¬ validate_cs g c s ∨ l < 0 ∨ l > 128 then
    (st, [48], 0, 0)
  else
    let ln := l.toNat
    let buf := payload.take ln ++ List.replicate (128 - ln) 0
    let wait := sleep_tracks g.T st.head c
    let idx := blk_idx g c s
    (⟨fun j => if j = idx then buf else st.img j, c⟩, [49], ln, wait)

/-- One client command of the disk protocol (the `I` command does not touch
the arm or the image and is omitted from the step relation). -/
inductive DOp where
  | opR (c s : Int)
  | opW (c s l : Int) (payload : List Nat)

/-- One protocol step: dispatches to `handle_R` or `handle_W` and keeps the
resulting state. -/
def dstep (g : Geom) (st : DState) : DOp → DState
  | .opR c s => (handle_R g st c s).1
  | .opW c s l payload => (handle_W g st c s l payload).1

/-- Runs a sequence of commands from a state. -/
def drun (g : Geom) (st : DState) : List DOp → DState
  | [] => st
  | op :: rest => drun g (dstep g st op) rest

theorem validate_cs_iff (g : Geom) (c s : Int) :
    validate_cs g c s = true ↔ 0 ≤ c ∧ c < (g.C : Int) ∧ 0 ≤ s ∧ s < (g.S : Int) := by
  simp [validate_cs, and_assoc]

/-- Helper: a step never moves the arm outside the valid cylinder range. -/
theorem dstep_head_mem (g : Geom) (_hC : 1 ≤ g.C) (st : DState)
    (h : 0 ≤ st.head ∧ st.head < (g.C : Int)) (op : DOp) :
    0 ≤ (dstep g st op).head ∧ (dstep g st op).head < (g.C : Int) := by
  cases op with
  | opR c s =>
    by_cases hv : validate_cs g c s = true
    · have hv1 := (validate_cs_iff g c s).1 hv
      simp only [dstep, handle_R, hv, Bool.not_true, if_neg, Bool.false_eq_true,
        not_false_eq_true, if_false]
      exact ⟨hv1.1, hv1.2.1⟩
    · simp only [dstep, handle_R]
      rw [if_pos]
      · exact h
      · simpa using hv
  | opW c s l payload =>
    by_cases hv : ¬ validate_cs g c s = true ∨ l < 0 ∨ l > 128
    · simp only [dstep, handle_W]
      rw [if_pos (by simpa using hv)]
      exact h
    · push_neg at hv
      have hv1 := (validate_cs_iff g c s).1 (by simpa using hv.1)
      simp only [dstep, handle_W]
      rw [if_neg (by simpa using hv)]
      exact ⟨hv1.1, hv1.2.1⟩

/-- Helper: arm validity is an invariant of whole runs. -/
theorem drun_head_mem (g : Geom) (hC : 1 ≤ g.C) (st : DState)
    (h : 0 ≤ st.head ∧ st.head < (g.C : Int)) (ops : List DOp) :
    0 ≤ (drun g st ops).head ∧ (drun g st ops).head < (g.C : Int) := by
  induction ops generalizing st with
  | nil => exact h
  | cons op rest ih => exact ih _ (dstep_head_mem g hC st h op)

end DiskSrv

namespace DiskSrv

/-- Claim C2: for every valid sector address and every byte string `d` of
length at most 128, `W c s len(d)` followed by the bytes of `d` yields the
reply 49 (the character one), and a subsequent `R c s` yields 49 followed by
exactly 128 bytes: `d` right-padded with zero bytes. -/
theorem claim_C2_write_read_roundtrip (g : Geom) (st : DState) (c s : Int)
    (d : List Nat) (hc0 : 0 ≤ c) (hc1 : c < (g.C : Int)) (hs0 : 0 ≤ s)
    (hs1 : s < (g.S : Int)) (hd : d.length ≤ 128) :
    (handle_W g st c s d.length d).2.1 = [49] ∧
      (handle_R g (handle_W g st c s d.length d).1 c s).2.1 =
        49 :: (d ++ List.replicate (128 - d.length) 0) := by
  have hv : validate_cs g c s = true := (validate_cs_iff g c s).2 ⟨hc0, hc1, hs0, hs1⟩
  have hl0 : ¬ ((d.length : Int) < 0) := by
    have : (0 : Int) ≤ d.length := Int.ofNat_nonneg _
    omega
  have hl1 : ¬ ((d.length : Int) > 128) := by
    simp only [not_lt]
    exact_mod_cast hd
  constructor
  · simp [handle_W, hv, hl0, hl1]
  · simp [handle_W, handle_R, hv, hl0, hl1]

theorem claim_C2_witness :
    (0 : Int) ≤ 1 ∧ (1 : Int) < ((2 : Nat) : Int) ∧ (0 : Int) ≤ 0 ∧
      (0 : Int) < ((2 : Nat) : Int) ∧ [7, 8].length ≤ 128 ∧
      ((handle_W ⟨2, 2, 0⟩ initDisk 1 0 ([7, 8] : List Nat).length [7, 8]).2.1 = [49] ∧
        (handle_R ⟨2, 2, 0⟩ (handle_W ⟨2, 2, 0⟩ initDisk 1 0 ([7, 8] : List Nat).length [7, 8]).1
            1 0).2.1 = 49 :: ([7, 8] ++ List.replicate (128 - ([7, 8] : List Nat).length) 0)) :=
  ⟨by norm_num, by norm_num, by norm_num, by norm_num, by norm_num,
    claim_C2_write_read_roundtrip ⟨2, 2, 0⟩ initDisk 1 0 [7, 8]
      (by norm_num) (by norm_num) (by norm_num) (by norm_num) (by norm_num)⟩

/-- Claim C5, counterexample: the claim groups the three error conditions in
one premise and asserts that `R c s` then replies with the single byte 48
whenever any of them holds.  On a 1-by-1 disk the triple `(c, s, l) =
(0, 0, 200)` satisfies the premise (`l` is outside `[0, 128]`), yet
`R 0 0` is a valid read and replies with 49 followed by the sector bytes,
not with the single byte 48. -/
theorem claim_C5_counterexample :
    ¬ ((0 : Int) ≤ 200 ∧ (200 : Int) ≤ 128) ∧
      (handle_R ⟨1, 1, 0⟩ initDisk 0 0).2.1 ≠ [48] := by
  constructor
  · norm_num
  · simp [handle_R, initDisk, validate_cs, blk_idx, sleep_tracks]

/-- Claim C5 (amended): for an invalid `(c, s)` the disk replies to `R c s`
with exactly the byte 48; for an invalid `(c, s)` or `l` outside `[0, 128]`
it replies to `W c s l` with exactly the byte 48 and consumes none of the
`l` payload bytes before replying. -/
theorem claim_C5_invalid_replies (g : Geom) (st : DState) (c s l : Int)
    (payload : List Nat) :
    (¬ (0 ≤ c ∧ c < (g.C : Int) ∧ 0 ≤ s ∧ s < (g.S : Int)) →
      (handle_R g st c s).2.1 = [48] ∧ (handle_R g st c s).1 = st) ∧
    (¬ (0 ≤ c ∧ c < (g.C : Int) ∧ 0 ≤ s ∧ s < (g.S : Int)) ∨ l < 0 ∨ l > 128 →
      (handle_W g st c s l payload).2.1 = [48] ∧
        (handle_W g st c s l payload).2.2.1 = 0 ∧
        (handle_W g st c s l payload).1 = st) := by
  constructor
  · intro h
    have hv : ¬ validate_cs g c s = true := by
      rw [validate_cs_iff]; exact h
    simp [handle_R, hv]
  · intro h
    have hv : ¬ validate_cs g c s = true ∨ l < 0 ∨ l > 128 := by
      rcases h with h | h | h
      · exact Or.inl (by rw [validate_cs_iff]; exact h)
      · exact Or.inr (Or.inl h)
      · exact Or.inr (Or.inr h)
    simp only [handle_W]
    rw [if_pos (by simpa using hv)]
    exact ⟨rfl, rfl, rfl⟩

theorem claim_C5_witness :
    (¬ ((0 : Int) ≤ 5 ∧ (5 : Int) < ((2 : Nat) : Int) ∧ (0 : Int) ≤ 0 ∧
        (0 : Int) < ((2 : Nat) : Int)) →
      (handle_R ⟨2, 2, 0⟩ initDisk 5 0).2.1 = [48] ∧
        (handle_R ⟨2, 2, 0⟩ initDisk 5 0).1 = initDisk) ∧
    (¬ ((0 : Int) ≤ 5 ∧ (5 : Int) < ((2 : Nat) : Int) ∧ (0 : Int) ≤ 0 ∧
        (0 : Int) < ((2 : Nat) : Int)) ∨ (9 : Int) < 0 ∨ (9 : Int) > 128 →
      (handle_W ⟨2, 2, 0⟩ initDisk 5 0 9 [1, 2]).2.1 = [48] ∧
        (handle_W ⟨2, 2, 0⟩ initDisk 5 0 9 [1, 2]).2.2.1 = 0 ∧
        (handle_W ⟨2, 2, 0⟩ initDisk 5 0 9 [1, 2]).1 = initDisk) :=
  claim_C5_invalid_replies ⟨2, 2, 0⟩ initDisk 5 0 9 [1, 2]

/-- Claim C9: the arm starts at cylinder 0, always stays a valid cylinder
index, a valid `R` or `W` moves it to the requested cylinder, and the seek
delay of a valid operation is the track distance from the previous arm
position times the configured track time, computed before the arm update. -/
theorem claim_C9_arm_invariant (g : Geom) (hC : 1 ≤ g.C) :
    (initDisk.head = 0) ∧
    (∀ ops : List DOp, 0 ≤ (drun g initDisk ops).head ∧
      (drun g initDisk ops).head < (g.C : Int)) ∧
    (∀ st : DState, ∀ c s : Int, validate_cs g c s = true →
      (handle_R g st c s).1.head = c ∧
        (handle_R g st c s).2.2 = (c - st.head).natAbs * g.T) ∧
    (∀ st : DState, ∀ c s l : Int, validate_cs g c s = true → 0 ≤ l → l ≤ 128 →
      (handle_W g st c s l []).1.head = c ∧
        (handle_W g st c s l []).2.2.2 = (c - st.head).natAbs * g.T) := by
  refine ⟨rfl, ?_, ?_, ?_⟩
  · intro ops
    refine drun_head_mem g hC initDisk ⟨le_refl 0, ?_⟩ ops
    show (0 : Int) < (g.C : Int)
    exact_mod_cast hC
  · intro st c s hv
    simp [handle_R, hv, sleep_tracks]
  · intro st c s l hv hl0 hl1
    simp [handle_W, hv, hl0.not_lt, hl1.not_lt, sleep_tracks]

theorem claim_C9_witness :
    1 ≤ (3 : Nat) ∧
      ((initDisk.head = 0) ∧
      (∀ ops : List DOp, 0 ≤ (drun ⟨3, 2, 5⟩ initDisk ops).head ∧
        (drun ⟨3, 2, 5⟩ initDisk ops).head < ((3 : Nat) : Int)) ∧
      (∀ st : DState, ∀ c s : Int, validate_cs ⟨3, 2, 5⟩ c s = true →
        (handle_R ⟨3, 2, 5⟩ st c s).1.head = c ∧
          (handle_R ⟨3, 2, 5⟩ st c s).2.2 = (c - st.head).natAbs * 5) ∧
      (∀ st : DState, ∀ c s l : Int, validate_cs ⟨3, 2, 5⟩ c s = true → 0 ≤ l → l ≤ 128 →
        (handle_W ⟨3, 2, 5⟩ st c s l []).1.head = c ∧
          (handle_W ⟨3, 2, 5⟩ st c s l []).2.2.2 = (c - st.head).natAbs * 5)) :=
  ⟨by norm_num, claim_C9_arm_invariant ⟨3, 2, 5⟩ (by norm_num)⟩

end DiskSrv

namespace FsSrv

open DiskSrv

/-- Modulus of the C `uint32_t` arithmetic used by the filesystem server. -/
def U32M : Nat := 4294967296

/-- FAT sentinel: block is free. -/
def FAT_FREE : Nat := 0

/-- FAT sentinel: last block of a chain. -/
def FAT_EOF : Nat := 4294967295

/-- FAT sentinel: metadata block (superblock, FAT, directory). -/
def FAT_RESERVED : Nat := 4294967294

/-- Embeds `layout_t`: the cached superblock fields. -/
structure Layout where
  total_blocks : Nat
  fat_start : Nat
  fat_sectors : Nat
  dir_start : Nat
  dir_sectors : Nat
  dir_entries : Nat

/-- Embeds `compute_layout`.  All fields are `uint32_t` in C, so the products
and sums are reduced modulo `2 ^ 32` exactly where C truncates; the final sum
`1 + fat_sectors` cannot wrap because `fat_sectors < 2 ^ 25 + 1`. -/
def compute_layout (g : Geom) : Layout :=
  let total := (g.C * g.S) % U32M
  let fat_bytes := (total * 4) % U32M
  let fat_secs := ((fat_bytes + 127) % U32M) / 128
  { total_blocks := total, fat_start := 1, fat_sectors := fat_secs,
    dir_start := 1 + fat_secs, dir_sectors := 32, dir_entries := 64 }

/-- First data block, `L->dir_start + L->dir_sectors` in `write_whole_file`. -/
def dataStart (L : Layout) : Nat := L.dir_start + L.dir_sectors

/-- Little-endian 4-byte encoding of a 32-bit value (`memcpy` of a
`uint32_t`). -/
def u32le (x : Nat) : List Nat :=
  [x % 256, x / 256 % 256, x / 65536 % 256, x / 16777216 % 256]

/-- Little-endian decoding of (up to) 4 bytes into a 32-bit value. -/
def leU32 (b : List Nat) : Nat :=
  b.getD 0 0 + 256 * b.getD 1 0 + 65536 * b.getD 2 0 + 16777216 * b.getD 3 0

/-- Little-endian 8-byte encoding of a C `long` (superblock geometry
fields). -/
def u64le (x : Nat) : List Nat :=
  [x % 256, x / 256 % 256, x / 65536 % 256, x / 16777216 % 256,
   x / 4294967296 % 256, x / 1099511627776 % 256,
   x / 281474976710656 % 256, x / 72057594037927936 % 256]

/-- Pointwise function update, the effect of a single in-place store. -/
def upd {α : Type} (f : Nat → α) (i : Nat) (x : α) : Nat → α :=
  fun j => if j = i then x else f j

/-- Embeds `disk_read_idx`: converts the linear index with `idx_to_cs`,
issues `R c s`, and fails when the disk answers with the byte 48 (which
happens exactly when the address is outside the geometry). -/
def disk_read_idx (g : Geom) (img : Img) (idx : Nat) : Option (List Nat) :=
  if validate_cs g ((idx / g.S : Nat) : Int) ((idx % g.S : Nat) : Int) then
    some (img ((idx / g.S) * g.S + idx % g.S))
  else none

/-- Embeds `disk_write_idx`: the server always transmits a full 128-byte
sector, so the disk stores the first 128 bytes of `blk`. -/
def disk_write_idx (g : Geom) (img : Img) (idx : Nat) (blk : List Nat) : Option Img :=
  if validate_cs g ((idx / g.S : Nat) : Int) ((idx % g.S : Nat) : Int) then
    some (upd img ((idx / g.S) * g.S + idx % g.S) (blk.take 128))
  else none

/-- Sequential sector-write loop with early exit on the first failed write,
the shape of every `for` loop in `fs_server.c` that calls `disk_write_idx`.
Returns the image after the writes that happened and whether all writes
succeeded. -/
def wlist (g : Geom) : Img → List (Nat × List Nat) → Img × Bool
  | img, [] => (img, true)
  | img, (i, b) :: rest =>
    match disk_write_idx g img i b with
    | none => (img, false)
    | some img2 => wlist g img2 rest

/-- Embeds `super_pack`: magic `CSFS1`, the two geometry `long`s at offsets
16 and 24, and the six `uint32_t` layout fields at offsets 40 to 63. -/
def super_pack (g : Geom) (L : Layout) : List Nat :=
  [67, 83, 70, 83, 49] ++ List.replicate 11 0 ++
    u64le g.C ++ u64le g.S ++ List.replicate 8 0 ++
    u32le L.total_blocks ++ u32le L.fat_start ++ u32le L.fat_sectors ++
    u32le L.dir_start ++ u32le L.dir_sectors ++ u32le L.dir_entries ++
    List.replicate 64 0

/-- Contents of FAT sector `s` as written by `fat_flush`: 32 little-endian
entries per sector, zero-filled past the last entry. -/
def fat_sector_block (L : Layout) (v : Nat → Nat) (s : Nat) : List Nat :=
  let k := min 32 (L.total_blocks - 32 * s)
  (((List.range k).map fun i => u32le (v (32 * s + i))).flatten) ++
    List.replicate (128 - 4 * k) 0

/-- True when all `n` sectors starting at `start` can be read back. -/
def sectors_readable (g : Geom) (img : Img) (start n : Nat) : Bool :=
  (List.range n).all fun s => (disk_read_idx g img (start + s)).isSome

/-- Embeds `fat_load`: reads every FAT sector and decodes entry `i` from the
4 bytes at offset `4 * (i % 32)` of FAT sector `i / 32`; entries the loop
never reaches keep the `calloc` value 0. -/
def fat_load (g : Geom) (L : Layout) (img : Img) : Option (Nat → Nat) :=
  if sectors_readable g img L.fat_start L.fat_sectors then
    some fun i =>
      if i < L.total_blocks ∧ i / 32 < L.fat_sectors then
        leU32 (((img (L.fat_start + i / 32)).drop (4 * (i % 32))).take 4)
      else 0
  else none

/-- Embeds `fat_flush`: writes every FAT sector back from the cache. -/
def fat_flush (g : Geom) (L : Layout) (img : Img) (v : Nat → Nat) : Img × Bool :=
  wlist g img ((List.range L.fat_sectors).map fun s =>
    (L.fat_start + s, fat_sector_block L v s))

/-- Embeds `dirent_fs`: name (32 bytes in the struct), byte length, first
block index, used flag. -/
structure Dirent where
  name : List Nat
  length : Nat
  first : Nat
  used : Nat
  deriving DecidableEq

/-- The 32 name bytes produced by `memset` to zero followed by
`strncpy(e.name, name, 31)`. -/
def pack_name (nm : List Nat) : List Nat :=
  let cs := (nm.takeWhile fun b => b ≠ 0).take 31
  cs ++ List.replicate (32 - cs.length) 0

/-- Embeds `dirent_pack`: 32 name bytes, little-endian length and first,
used byte at offset 40, zero padding to 64 bytes. -/
def dirent_pack (e : Dirent) : List Nat :=
  (e.name.take 32 ++ List.replicate (32 - min 32 e.name.length) 0) ++
    u32le e.length ++ u32le e.first ++ [e.used % 256] ++ List.replicate 23 0

/-- Embeds `dirent_unpack`: copies the fields back out and forces name byte
31 to zero. -/
def dirent_unpack (b : List Nat) : Dirent :=
  { name := b.take 31 ++ [0],
    length := leU32 ((b.drop 32).take 4),
    first := leU32 ((b.drop 36).take 4),
    used := b.getD 40 0 }

/-- Embeds `dir_read_entry`: two 64-byte entries per directory sector. -/
def dir_read_entry (g : Geom) (L : Layout) (img : Img) (slot : Nat) : Option Dirent :=
  match disk_read_idx g img (L.dir_start + slot / 2) with
  | none => none
  | some blk => some (dirent_unpack ((blk.drop ((slot % 2) * 64)).take 64))

/-- Embeds `dir_write_entry`: read-modify-write of the containing sector. -/
def dir_write_entry (g : Geom) (L : Layout) (img : Img) (slot : Nat) (e : Dirent) :
    Option Img :=
  match disk_read_idx g img (L.dir_start + slot / 2) with
  | none => none
  | some blk =>
    let offs := (slot % 2) * 64
    disk_write_idx g img (L.dir_start + slot / 2)
      (blk.take offs ++ dirent_pack e ++ blk.drop (offs + 64))

/-- Embeds the test `strncmp(a, b, n) == 0` on NUL-terminated byte
sequences; bytes past the end of a list are the terminating NUL. -/
def strncmp_eq : List Nat → List Nat → Nat → Bool
  | _, _, 0 => true
  | a, b, n + 1 =>
    let x := a.headD 0
    let y := b.headD 0
    if x ≠ y then false else if x = 0 then true else strncmp_eq a.tail b.tail n

/-- Scan loop of `dir_find_by_name` over a list of slot indices.  `none`
models the `-1` read-error return, `some none` the `1` not-found return, and
`some (some (slot, e))` the successful return. -/
def dir_find_in (g : Geom) (L : Layout) (img : Img) (nm : List Nat) :
    List Nat → Option (Option (Nat × Dirent))
  | [] => some none
  | i :: rest =>
    match dir_read_entry g L img i with
    | none => none
    | some e =>
      if e.used ≠ 0 ∧ strncmp_eq e.name nm 32 = true then some (some (i, e))
      else dir_find_in g L img nm rest

/-- Embeds `dir_find_by_name`: scans all slots in index order. -/
def dir_find_by_name (g : Geom) (L : Layout) (img : Img) (nm : List Nat) :
    Option (Option (Nat × Dirent)) :=
  dir_find_in g L img nm (List.range L.dir_entries)

/-- Scan loop of `dir_find_free` over a list of slot indices. -/
def dir_find_free_in (g : Geom) (L : Layout) (img : Img) :
    List Nat → Option (Option Nat)
  | [] => some none
  | i :: rest =>
    match dir_read_entry g L img i with
    | none => none
    | some e => if e.used = 0 then some (some i) else dir_find_free_in g L img rest

/-- Embeds `dir_find_free`: lowest-index unused slot. -/
def dir_find_free (g : Geom) (L : Layout) (img : Img) : Option (Option Nat) :=
  dir_find_free_in g L img (List.range L.dir_entries)

/-- Embeds the loop of `find_free_block` starting at index `i`; the fuel is
the number of remaining indices below `total_blocks`, so the recursion
mirrors the C `for` loop exactly. -/
def find_free_from (L : Layout) (v : Nat → Nat) : Nat → Nat → Option Nat
  | _, 0 => none
  | i, fuel + 1 =>
    if i < L.total_blocks then
      if v i = FAT_FREE then some i else find_free_from L v (i + 1) fuel
    else none

/-- Embeds `find_free_block`: first FREE FAT entry at index `start` or
above. -/
def find_free_block (L : Layout) (v : Nat → Nat) (start : Nat) : Option Nat :=
  find_free_from L v start (L.total_blocks - start)

/-- Embeds `free_chain` on the FAT cache.  The C loop has no bound and would
cycle forever on a corrupted FAT; the fuel (always passed as
`total_blocks + 1`, more than the length of any duplicate-free chain) makes
the model total, and every theorem below only invokes it on well-formed
chains, where the fuel is never exhausted. -/
def free_chain : (Nat → Nat) → Nat → Nat → (Nat → Nat)
  | v, 0, _ => v
  | v, fuel + 1, cur =>
    if cur = FAT_EOF then v
    else
      let nxt := v cur
      let v2 := upd v cur FAT_FREE
      if nxt = FAT_EOF then v2 else free_chain v2 fuel nxt

/-- Result of the allocation loop in `write_whole_file`: either the updated
cache and the chain head, or failure with the partially updated cache. -/
inductive AllocRes where
  | ok (v : Nat → Nat) (head : Nat)
  | fail (v : Nat → Nat)

/-- Embeds the block-allocation loop of `write_whole_file`: repeatedly finds
the first FREE block at or above `start`, marks it EOF, and links it behind
the previous block. -/
def alloc_loop (L : Layout) (start : Nat) :
    (Nat → Nat) → Nat → Nat → Nat → AllocRes
  | v, 0, head, _ => .ok v head
  | v, k + 1, head, prev =>
    match find_free_block L v start with
    | none => .fail v
    | some b =>
      let v1 := upd v b FAT_EOF
      let v2 := if prev ≠ FAT_EOF then upd v1 prev b else v1
      let head2 := if prev ≠ FAT_EOF then head else b
      alloc_loop L start v2 k head2 b

/-- Embeds the data-writing loop of `write_whole_file`: walks the fresh
chain, writing one zero-padded 128-byte sector per block.  The loop runs at
most `data.length + 1` iterations (each one either finishes or advances
`pos`), so the fuel used by the caller is never exhausted. -/
def write_loop (g : Geom) (v : Nat → Nat) (data : List Nat) :
    Nat → Img → Nat → Nat → Nat → Option Img
  | 0, _, _, _, _ => none
  | fuel + 1, img, cur, left, pos =>
    if cur = FAT_EOF then some img
    else
      let tk := min left 128
      let blk := (data.drop pos).take tk ++ List.replicate (128 - tk) 0
      match disk_write_idx g img cur blk with
      | none => none
      | some img2 =>
        let pos2 := pos + tk
        let left2 := left - tk
        let nxt := v cur
        let cur2 := if nxt = FAT_EOF ∨ pos2 ≥ data.length then FAT_EOF else nxt
        write_loop g v data fuel img2 cur2 left2 pos2

/-- Result of `write_whole_file`: `ok` is the C return 0, `nospace` the
return -2, `ioerr` the return -1.  Each carries the FAT cache, image, and
directory entry as left by the function.  In the `ioerr` case the C code may
have written some data sectors before failing; no theorem below exercises
that path, and the model keeps the pre-loop image there. -/
inductive WRes where
  | ok (v : Nat → Nat) (img : Img) (ent : Dirent)
  | nospace (v : Nat → Nat) (img : Img) (ent : Dirent)
  | ioerr (v : Nat → Nat) (img : Img) (ent : Dirent)

/-- Embeds `write_whole_file`: free the old chain in the cache, then (for a
non-empty payload) allocate `ceil(len / 128)` blocks — with the `uint32_t`
truncation of `len + 127` — link them, and write the data sectors. -/
def write_whole_file (g : Geom) (L : Layout) (v0 : Nat → Nat) (img : Img)
    (ent0 : Dirent) (data : List Nat) : WRes :=
  let v := if ent0.used ≠ 0 ∧ ent0.first ≠ FAT_EOF then
    free_chain v0 (L.total_blocks + 1) ent0.first else v0
  let ent : Dirent := { ent0 with first := FAT_EOF, length := data.length }
  if data.length = 0 then .ok v img ent
  else
    let blocks := ((data.length + 127) % U32M) / 128
    match alloc_loop L (dataStart L) v blocks FAT_EOF FAT_EOF with
    | .fail v2 => .nospace v2 img ent
    | .ok v2 head =>
      let ent2 : Dirent := { ent with first := head }
      match write_loop g v2 data (data.length + 2) img head data.length 0 with
      | none => .ioerr v2 img ent2
      | some img2 => .ok v2 img2 ent2

/-- Embeds the loop of `read_whole_file`; returns the bytes copied so far
and the count of requested bytes that remained uncopied when the walk hit
EOF.  Each iteration with `left > 0` strictly decreases `left`, so the fuel
`length + 1` used by the caller is never exhausted. -/
def read_loop (g : Geom) (v : Nat → Nat) :
    Nat → Img → Nat → Nat → List Nat → Option (List Nat × Nat)
  | 0, _, _, _, _ => none
  | fuel + 1, img, cur, left, acc =>
    if left > 0 ∧ cur ≠ FAT_EOF then
      match disk_read_idx g img cur with
      | none => none
      | some blk =>
        let tk := min left 128
        read_loop g v fuel img (v cur) (left - tk) (acc ++ blk.take tk)
    else some (acc, left)

/-- Embeds `read_whole_file`: walks the chain from `ent.first`, copying
`min(left, 128)` bytes per block. -/
def read_whole_file (g : Geom) (v : Nat → Nat) (img : Img) (ent : Dirent) :
    Option (List Nat × Nat) :=
  read_loop g v (ent.length + 1) img ent.first ent.length []

/-- Per-service filesystem state: the disk image (as visible through the
worker's disk connection), the cached layout `G.L`, the FAT cache `G.fat`
(`none` when not loaded), and the `G.formatted` flag. -/
structure FsState where
  img : Img
  L : Layout
  fat : Option (Nat → Nat)
  formatted : Bool

/-- Embeds the `fat_load(disk, &G.L, &G.fat)` call pattern: a no-op when the
cache is already loaded. -/
def fat_ensure (g : Geom) (st : FsState) : Option (Nat → Nat) :=
  match st.fat with
  | some v => some v
  | none => fat_load g st.L st.img

/-- The reservation pass of `format_fs`: every block up to the last metadata
sector (`meta_end = dir_start + dir_sectors - 1`) that exists on the disk is
marked RESERVED in the cache. -/
def reserve_meta (L : Layout) (v : Nat → Nat) : Nat → Nat :=
  fun i =>
    if i ≤ L.dir_start + L.dir_sectors - 1 ∧ i < L.total_blocks then FAT_RESERVED
    else v i

/-- Embeds `format_fs`: write the superblock, zero the FAT sectors, load the
FAT cache, mark the metadata blocks RESERVED, flush the FAT, zero the
directory sectors.  Returns the image, the cache (when it was loaded), and
whether every step succeeded. -/
def format_fs (g : Geom) (L : Layout) (img0 : Img) :
    Img × Option (Nat → Nat) × Bool :=
  match disk_write_idx g img0 0 (super_pack g L) with
  | none => (img0, none, false)
  | some img1 =>
    match wlist g img1 ((List.range L.fat_sectors).map fun s =>
        (L.fat_start + s, List.replicate 128 0)) with
    | (img2, false) => (img2, none, false)
    | (img2, true) =>
      match fat_load g L img2 with
      | none => (img2, none, false)
      | some v =>
        match fat_flush g L img2 (reserve_meta L v) with
        | (img3, false) => (img3, some (reserve_meta L v), false)
        | (img3, true) =>
          match wlist g img3 ((List.range L.dir_sectors).map fun s =>
              (L.dir_start + s, List.replicate 128 0)) with
          | (img4, ok) => (img4, some (reserve_meta L v), ok)

/-- Decimal ASCII digits of `n`, as printed by `snprintf` with `%u`. -/
def decBytes (n : Nat) : List Nat :=
  (Nat.toDigits 10 n).map Char.toNat

/-- Embeds `cmd_format`: recompute the layout, reset the FAT cache, format,
and reply 0 on success or 2 on failure.  The formatted flag is only set on
success. -/
def cmd_format (g : Geom) (st : FsState) : FsState × List Nat :=
  let L := compute_layout g
  let r := format_fs g L st.img
  if r.2.2 then ({ img := r.1, L := L, fat := r.2.1, formatted := true }, [48, 10])
  else ({ img := r.1, L := L, fat := r.2.1, formatted := st.formatted }, [50, 10])

/-- Embeds `cmd_create`.  The reply bytes are 48 10 for 0, 49 10 for 1,
50 10 for 2, each followed by a newline. -/
def cmd_create (g : Geom) (st : FsState) (nm : List Nat) : FsState × List Nat :=
  if nm.length = 0 ∨ nm.length ≥ 32 then (st, [50, 10])
  else if st.formatted = false then (st, [50, 10])
  else
    match fat_ensure g st with
    | none => (st, [50, 10])
    | some v =>
      let st1 : FsState := { st with fat := some v }
      match dir_find_by_name g st.L st.img nm with
      | some (some _) => (st1, [49, 10])
      | _ =>
        match dir_find_free g st.L st.img with
        | some (some slot) =>
          let e : Dirent := { name := pack_name nm, length := 0, first := FAT_EOF, used := 1 }
          match dir_write_entry g st.L st.img slot e with
          | some img2 => ({ st1 with img := img2 }, [48, 10])
          | none => (st1, [50, 10])
        | _ => (st1, [50, 10])

/-- Embeds `cmd_delete`: free the chain in the cache, flush the FAT, then
zero the directory slot (a `memset`-zero entry packs to 64 zero bytes). -/
def cmd_delete (g : Geom) (st : FsState) (nm : List Nat) : FsState × List Nat :=
  if st.formatted = false then (st, [50, 10])
  else
    match fat_ensure g st with
    | none => (st, [50, 10])
    | some v =>
      let st1 : FsState := { st with fat := some v }
      match dir_find_by_name g st.L st.img nm with
      | some (some (slot, e)) =>
        let v2 := if e.first ≠ FAT_EOF then
          free_chain v (st.L.total_blocks + 1) e.first else v
        match fat_flush g st.L st.img v2 with
        | (img2, false) => ({ st1 with img := img2, fat := some v2 }, [50, 10])
        | (img2, true) =>
          let blank : Dirent := { name := List.replicate 32 0, length := 0, first := 0, used := 0 }
          match dir_write_entry g st.L img2 slot blank with
          | some img3 => ({ st1 with img := img3, fat := some v2 }, [48, 10])
          | none => ({ st1 with img := img2, fat := some v2 }, [50, 10])
      | _ => (st1, [49, 10])

/-- Embeds `cmd_read`.  The success reply is `0 <len> ` followed by the file
bytes and a newline; bytes the chain walk never copied correspond to
uninitialized `malloc` memory in C and are modelled as zero bytes (every
theorem below only exercises states where the chain covers the length, so no
such byte is ever sent). -/
def cmd_read (g : Geom) (st : FsState) (nm : List Nat) : FsState × List Nat :=
  if st.formatted = false then (st, [49, 32, 48, 32, 10])
  else
    match fat_ensure g st with
    | none => (st, [50, 32, 48, 32, 10])
    | some v =>
      let st1 : FsState := { st with fat := some v }
      match dir_find_by_name g st.L st.img nm with
      | some (some (_, e)) =>
        match read_whole_file g v st.img e with
        | none => (st1, [50, 32, 48, 32, 10])
        | some (acc, leftover) =>
          (st1, [48, 32] ++ decBytes e.length ++ [32] ++
            (acc ++ List.replicate leftover 0) ++ [10])
      | _ => (st1, [49, 32, 48, 32, 10])

/-- Embeds `cmd_write` for a client that sends `W <nm> <len>` followed by
exactly `len = data.length` raw payload bytes (the handler reads the payload
before taking the metadata lock). -/
def cmd_write (g : Geom) (st : FsState) (nm : List Nat) (data : List Nat) :
    FsState × List Nat :=
  if st.formatted = false then (st, [50, 10])
  else
    match fat_ensure g st with
    | none => (st, [50, 10])
    | some v =>
      let st1 : FsState := { st with fat := some v }
      match dir_find_by_name g st.L st.img nm with
      | some (some (slot, e)) =>
        match write_whole_file g st.L v st.img e data with
        | .nospace v2 img2 _ => ({ st1 with img := img2, fat := some v2 }, [50, 10])
        | .ioerr v2 img2 _ => ({ st1 with img := img2, fat := some v2 }, [50, 10])
        | .ok v2 img2 ent2 =>
          match fat_flush g st.L img2 v2 with
          | (img3, false) => ({ st1 with img := img3, fat := some v2 }, [50, 10])
          | (img3, true) =>
            match dir_write_entry g st.L img3 slot ent2 with
            | some img4 => ({ st1 with img := img4, fat := some v2 }, [48, 10])
            | none => ({ st1 with img := img3, fat := some v2 }, [50, 10])
      | _ => (st1, [49, 10])

end FsSrv

namespace FsSrv

open DiskSrv

theorem validate_idx (g : Geom) (hS : 1 ≤ g.S) (idx : Nat) :
    validate_cs g ((idx / g.S : Nat) : Int) ((idx % g.S : Nat) : Int) = true ↔
      idx < g.C * g.S := by
  rw [validate_cs_iff]
  constructor
  · rintro ⟨-, h2, -, -⟩
    have hdiv : idx / g.S < g.C := by exact_mod_cast h2
    exact (Nat.div_lt_iff_lt_mul hS).1 hdiv
  · intro h
    refine ⟨Int.ofNat_nonneg _, ?_, Int.ofNat_nonneg _, ?_⟩
    · exact_mod_cast (Nat.div_lt_iff_lt_mul hS).2 h
    · exact_mod_cast Nat.mod_lt _ hS

theorem idx_recompose (g : Geom) (idx : Nat) :
    (idx / g.S) * g.S + idx % g.S = idx := by
  rw [Nat.mul_comm]
  exact Nat.div_add_mod idx g.S

/-- Helper: a read through the disk connection succeeds exactly on indices
inside the geometry and returns the sector unchanged. -/
theorem disk_read_idx_eq (g : Geom) (hS : 1 ≤ g.S) (img : Img) (idx : Nat) :
    disk_read_idx g img idx = if idx < g.C * g.S then some (img idx) else none := by
  unfold disk_read_idx
  by_cases h : idx < g.C * g.S
  · rw [if_pos ((validate_idx g hS idx).2 h), if_pos h, idx_recompose]
  · rw [if_neg (fun hv => h ((validate_idx g hS idx).1 hv)), if_neg h]

/-- Helper: a write through the disk connection succeeds exactly on indices
inside the geometry and stores the first 128 bytes. -/
theorem disk_write_idx_eq (g : Geom) (hS : 1 ≤ g.S) (img : Img) (idx : Nat)
    (blk : List Nat) :
    disk_write_idx g img idx blk =
      if idx < g.C * g.S then some (upd img idx (blk.take 128)) else none := by
  unfold disk_write_idx
  by_cases h : idx < g.C * g.S
  · rw [if_pos ((validate_idx g hS idx).2 h), if_pos h, idx_recompose]
  · rw [if_neg (fun hv => h ((validate_idx g hS idx).1 hv)), if_neg h]

theorem upd_self {α : Type} (f : Nat → α) (i : Nat) (x : α) : upd f i x i = x := by
  simp [upd]

theorem upd_other {α : Type} (f : Nat → α) (i j : Nat) (x : α) (h : j ≠ i) :
    upd f i x j = f j := by
  simp [upd, h]

/-- Helper: the sequential write loop succeeds exactly when every target
index is inside the geometry. -/
theorem wlist_ok_iff (g : Geom) (hS : 1 ≤ g.S) (l : List (Nat × List Nat)) (img : Img) :
    (wlist g img l).2 = true ↔ ∀ p ∈ l, p.1 < g.C * g.S := by
  induction l generalizing img with
  | nil => simp [wlist]
  | cons p rest ih =>
    obtain ⟨i, b⟩ := p
    rw [wlist, disk_write_idx_eq g hS]
    by_cases h : i < g.C * g.S
    · rw [if_pos h]
      simp only [List.mem_cons]
      constructor
      · intro hok q hq
        rcases hq with hq | hq
        · subst hq; exact h
        · exact (ih _).1 hok q hq
      · intro hall
        exact (ih _).2 fun q hq => hall q (Or.inr hq)
    · rw [if_neg h]
      simp only [List.mem_cons]
      constructor
      · intro hfalse
        exact absurd hfalse (by simp)
      · intro hall
        exact absurd (hall (i, b) (Or.inl rfl)) h

/-- Helper: the sequential write loop leaves untargeted sectors unchanged. -/
theorem wlist_img_notin (g : Geom) (hS : 1 ≤ g.S) (l : List (Nat × List Nat))
    (img : Img) (j : Nat) (hj : ∀ p ∈ l, p.1 ≠ j) :
    (wlist g img l).1 j = img j := by
  induction l generalizing img with
  | nil => rfl
  | cons p rest ih =>
    obtain ⟨i, b⟩ := p
    rw [wlist, disk_write_idx_eq g hS]
    by_cases h : i < g.C * g.S
    · rw [if_pos h]
      rw [ih _ fun q hq => hj q (List.mem_cons_of_mem _ hq)]
      exact upd_other img i j _ fun he => hj (i, b) (List.mem_cons_self _ _) he.symm
    · rw [if_neg h]

/-- Helper: a successful `format_fs` implies that every directory sector
index fits inside the geometry. -/
theorem format_ok_dir_bound (g : Geom) (hS : 1 ≤ g.S) (L : Layout) (img : Img)
    (h : (format_fs g L img).2.2 = true) :
    ∀ s < L.dir_sectors, L.dir_start + s < g.C * g.S := by
  intro s hs
  unfold format_fs at h
  cases hw0 : disk_write_idx g img 0 (super_pack g L) with
  | none => rw [hw0] at h; simp at h
  | some img1 =>
    rw [hw0] at h
    dsimp only at h
    cases hw1 : wlist g img1 ((List.range L.fat_sectors).map fun t =>
        (L.fat_start + t, List.replicate 128 0)) with
    | mk img2 ok1 =>
      rw [hw1] at h
      cases ok1 with
      | false => simp at h
      | true =>
        dsimp only at h
        cases hl : fat_load g L img2 with
        | none => rw [hl] at h; simp at h
        | some v =>
          rw [hl] at h
          dsimp only at h
          cases hw2 : fat_flush g L img2 (reserve_meta L v) with
          | mk img3 ok2 =>
            rw [hw2] at h
            cases ok2 with
            | false => simp at h
            | true =>
              dsimp only at h
              cases hw3 : wlist g img3 ((List.range L.dir_sectors).map fun t =>
                  (L.dir_start + t, List.replicate 128 0)) with
              | mk img4 ok3 =>
                rw [hw3] at h
                dsimp only at h
                have hok : (wlist g img3 ((List.range L.dir_sectors).map fun t =>
                    (L.dir_start + t, List.replicate 128 0))).2 = true := by
                  rw [hw3]; exact h
                exact (wlist_ok_iff g hS _ img3).1 hok (L.dir_start + s, List.replicate 128 0)
                  (List.mem_map.2 ⟨s, List.mem_range.2 hs, rfl⟩)

/-- Claim C6 (amended): `F` is rejected — the reply is 2 and the formatted
flag is not set — for every geometry whose block count is strictly below
`dir_start + dir_sectors`: some metadata sector index then lies outside the
disk, the disk refuses the write, and formatting aborts.  (At equality the
metadata exactly fills the disk and `F` succeeds; see the counterexample.) -/
theorem claim_C6_reject_small_geometry (g : Geom) (st : FsState) (hS : 1 ≤ g.S)
    (h : g.C * g.S < (compute_layout g).dir_start + (compute_layout g).dir_sectors) :
    (cmd_format g st).2 = [50, 10] ∧ (cmd_format g st).1.formatted = st.formatted := by
  have hds : (compute_layout g).dir_sectors = 32 := rfl
  have hflag : (format_fs g (compute_layout g) st.img).2.2 = false := by
    by_contra hne
    have htrue : (format_fs g (compute_layout g) st.img).2.2 = true := by
      cases hb : (format_fs g (compute_layout g) st.img).2.2 with
      | false => exact absurd hb hne
      | true => rfl
    have hbound := format_ok_dir_bound g hS _ st.img htrue 31 (by rw [hds]; omega)
    omega
  constructor
  · simp only [cmd_format, hflag]
    rfl
  · simp only [cmd_format, hflag]
    rfl

theorem claim_C6_witness :
    1 ≤ (1 : Nat) ∧
      1 * 1 < (compute_layout ⟨1, 1, 0⟩).dir_start + (compute_layout ⟨1, 1, 0⟩).dir_sectors ∧
      (cmd_format ⟨1, 1, 0⟩ ⟨fun _ => List.replicate 128 0, ⟨0, 0, 0, 0, 0, 0⟩, none, false⟩).2
          = [50, 10] ∧
      (cmd_format ⟨1, 1, 0⟩ ⟨fun _ => List.replicate 128 0, ⟨0, 0, 0, 0, 0, 0⟩, none,
          false⟩).1.formatted = false :=
  ⟨by decide, by decide,
    (claim_C6_reject_small_geometry ⟨1, 1, 0⟩ _ (by decide) (by decide)).1,
    (claim_C6_reject_small_geometry ⟨1, 1, 0⟩ _ (by decide) (by decide)).2⟩

end FsSrv

namespace FsSrv

open DiskSrv

/-- Claim C10: while the filesystem is not formatted, `C`, `D`, and `W` all
reply 2, `R` replies with the not-found line `1 0 `, and none of the four
operations changes any state (in particular no FAT, directory, or data
sector on the disk). -/
theorem claim_C10_unformatted_ops (g : Geom) (st : FsState) (nm data : List Nat)
    (h : st.formatted = false) :
    (cmd_create g st nm).2 = [50, 10] ∧ (cmd_create g st nm).1 = st ∧
    (cmd_delete g st nm).2 = [50, 10] ∧ (cmd_delete g st nm).1 = st ∧
    (cmd_read g st nm).2 = [49, 32, 48, 32, 10] ∧ (cmd_read g st nm).1 = st ∧
    (cmd_write g st nm data).2 = [50, 10] ∧ (cmd_write g st nm data).1 = st := by
  refine ⟨?_, ?_, ?_, ?_, ?_, ?_, ?_, ?_⟩
  · by_cases hnm : nm.length = 0 ∨ nm.length ≥ 32 <;> simp [cmd_create, hnm, h]
  · by_cases hnm : nm.length = 0 ∨ nm.length ≥ 32 <;> simp [cmd_create, hnm, h]
  · simp [cmd_delete, h]
  · simp [cmd_delete, h]
  · simp [cmd_read, h]
  · simp [cmd_read, h]
  · simp [cmd_write, h]
  · simp [cmd_write, h]

/-- Unformatted fresh server state over an all-zero disk: `G` is
zero-initialized, the FAT cache is not loaded, and no superblock has been
adopted. -/
def fs0 : FsState :=
  ⟨fun _ => List.replicate 128 0, ⟨0, 0, 0, 0, 0, 0⟩, none, false⟩

theorem claim_C10_witness :
    fs0.formatted = false ∧
      ((cmd_create ⟨2, 2, 0⟩ fs0 [97]).2 = [50, 10] ∧
        (cmd_create ⟨2, 2, 0⟩ fs0 [97]).1 = fs0 ∧
        (cmd_delete ⟨2, 2, 0⟩ fs0 [97]).2 = [50, 10] ∧
        (cmd_delete ⟨2, 2, 0⟩ fs0 [97]).1 = fs0 ∧
        (cmd_read ⟨2, 2, 0⟩ fs0 [97]).2 = [49, 32, 48, 32, 10] ∧
        (cmd_read ⟨2, 2, 0⟩ fs0 [97]).1 = fs0 ∧
        (cmd_write ⟨2, 2, 0⟩ fs0 [97] [3]).2 = [50, 10] ∧
        (cmd_write ⟨2, 2, 0⟩ fs0 [97] [3]).1 = fs0) :=
  ⟨rfl, claim_C10_unformatted_ops ⟨2, 2, 0⟩ fs0 [97] [3] rfl⟩

/-- Claim C8 (amended): for every geometry whose layout arithmetic does not
overflow `uint32_t` (that is, `4 * C * S + 127 < 2 ^ 32`), the computed
layout places the FAT at sector 1 with `ceil(N * 4 / 128)` sectors, the
directory immediately after it with 32 sectors holding 64 entries (2 per
sector), and the data area immediately after the directory.  (Sector 0 is
the superblock: the FAT deliberately starts at 1.) -/
theorem claim_C8_layout (g : Geom) (h : 4 * (g.C * g.S) + 127 < 4294967296) :
    (compute_layout g).fat_start = 1 ∧
    (compute_layout g).total_blocks = g.C * g.S ∧
    (compute_layout g).fat_sectors = (g.C * g.S * 4 + 127) / 128 ∧
    (compute_layout g).dir_start = (compute_layout g).fat_start + (compute_layout g).fat_sectors ∧
    (compute_layout g).dir_sectors = 32 ∧
    (compute_layout g).dir_entries = 64 ∧
    (compute_layout g).dir_entries = 2 * (compute_layout g).dir_sectors ∧
    dataStart (compute_layout g) = (compute_layout g).dir_start + (compute_layout g).dir_sectors := by
  have e1 : g.C * g.S % U32M = g.C * g.S := Nat.mod_eq_of_lt (by simp only [U32M]; omega)
  have e2 : g.C * g.S * 4 % U32M = g.C * g.S * 4 := Nat.mod_eq_of_lt (by simp only [U32M]; omega)
  have e3 : (g.C * g.S * 4 + 127) % U32M = g.C * g.S * 4 + 127 :=
    Nat.mod_eq_of_lt (by simp only [U32M]; omega)
  refine ⟨rfl, e1, ?_, ?_, rfl, rfl, rfl, rfl⟩
  · show ((g.C * g.S % U32M) * 4 % U32M + 127) % U32M / 128 = (g.C * g.S * 4 + 127) / 128
    rw [e1, e2, e3]
  · rfl

/-- Claim C8, counterexample: `compute_layout` does its arithmetic in
`uint32_t`.  For the geometry 65536 by 65536 the block count `N = 2 ^ 32`
wraps to 0, so the computed FAT occupies 0 sectors, not the
`ceil(N * 4 / 128) = 2 ^ 27` sectors the claim demands for every geometry. -/
theorem claim_C8_counterexample :
    (compute_layout ⟨65536, 65536, 0⟩).fat_sectors = 0 ∧
      (65536 * 65536 * 4 + 127) / 128 = 134217728 ∧
      (compute_layout ⟨65536, 65536, 0⟩).fat_sectors ≠ (65536 * 65536 * 4 + 127) / 128 := by
  refine ⟨by decide, by norm_num, by decide⟩

theorem claim_C8_witness :
    4 * (4 * 4) + 127 < 4294967296 ∧
      ((compute_layout ⟨4, 4, 0⟩).fat_start = 1 ∧
      (compute_layout ⟨4, 4, 0⟩).total_blocks = 4 * 4 ∧
      (compute_layout ⟨4, 4, 0⟩).fat_sectors = (4 * 4 * 4 + 127) / 128 ∧
      (compute_layout ⟨4, 4, 0⟩).dir_start =
        (compute_layout ⟨4, 4, 0⟩).fat_start + (compute_layout ⟨4, 4, 0⟩).fat_sectors ∧
      (compute_layout ⟨4, 4, 0⟩).dir_sectors = 32 ∧
      (compute_layout ⟨4, 4, 0⟩).dir_entries = 64 ∧
      (compute_layout ⟨4, 4, 0⟩).dir_entries = 2 * (compute_layout ⟨4, 4, 0⟩).dir_sectors ∧
      dataStart (compute_layout ⟨4, 4, 0⟩) =
        (compute_layout ⟨4, 4, 0⟩).dir_start + (compute_layout ⟨4, 4, 0⟩).dir_sectors) :=
  ⟨by norm_num, claim_C8_layout ⟨4, 4, 0⟩ (by norm_num)⟩

/-- Geometry of the 6-by-6 example disk: 36 blocks, 2 FAT sectors,
directory at sectors 3 to 34, single data block 35. -/
def g66 : Geom := ⟨6, 6, 0⟩

/-- Layout of the 6-by-6 example disk. -/
def L66 : Layout := compute_layout g66

/-- FAT cache of a freshly formatted 6-by-6 disk: metadata blocks RESERVED,
the single data block 35 FREE. -/
def fatEmpty66 : Nat → Nat := fun i => if i < 35 then FAT_RESERVED else FAT_FREE

/-- Directory entry of an empty file named `a`. -/
def entA0 : Dirent := ⟨pack_name [97], 0, FAT_EOF, 1⟩

/-- Directory entry of the file `a` holding one byte in block 35. -/
def entA1 : Dirent := ⟨pack_name [97], 1, 35, 1⟩

/-- FAT cache of the 6-by-6 disk when block 35 holds the single block of a
file. -/
def fatB66 : Nat → Nat :=
  fun i => if i < 35 then FAT_RESERVED else if i = 35 then FAT_EOF else FAT_FREE

/-- Disk image of the 6-by-6 disk: superblock, the two FAT sectors encoding
`v`, directory sector 3 holding the given bytes, data block 35 holding the
given bytes, everything else zero. -/
def img66 (v : Nat → Nat) (dirsec0 : List Nat) (blk35 : List Nat) : Img :=
  fun i =>
    if i = 0 then super_pack g66 L66
    else if i = 1 ∨ i = 2 then fat_sector_block L66 v (i - 1)
    else if i = 3 then dirsec0
    else if i = 35 then blk35
    else List.replicate 128 0

/-- Formatted 6-by-6 filesystem holding one empty file named `a`. -/
def stA66 : FsState :=
  ⟨img66 fatEmpty66 (dirent_pack entA0 ++ List.replicate 64 0) (List.replicate 128 0),
    L66, some fatEmpty66, true⟩

/-- Formatted 6-by-6 filesystem where file `a` holds one byte (120) in
block 35; no free data blocks remain. -/
def stB66 : FsState :=
  ⟨img66 fatB66 (dirent_pack entA1 ++ List.replicate 64 0) (120 :: List.replicate 127 0),
    L66, some fatB66, true⟩

/-- Claim C4, counterexample: on a formatted filesystem, `C` with the
invalid (empty) name replies 2, not the 1 the claim asserts for invalid
names (`cmd_create` checks the name length before anything else and answers
2). -/
theorem claim_C4_counterexample :
    stA66.formatted = true ∧ ([] : List Nat).length = 0 ∧
      (cmd_create g66 stA66 []).2 = [50, 10] ∧
      (cmd_create g66 stA66 []).2 ≠ [49, 10] := by
  exact ⟨rfl, rfl, by decide, by decide⟩

/-- Claim C6, counterexample: the claim demands rejection whenever
`N ≤ dir_start + dir_sectors`.  For the 5-by-7 geometry the 35 blocks
exactly hold the metadata (`dir_start + dir_sectors = 3 + 32 = 35`), the
premise `N ≤ 35` holds, yet `F` succeeds: it replies 0 and sets the
formatted flag (leaving a filesystem with zero data blocks). -/
theorem claim_C6_counterexample :
    5 * 7 ≤ (compute_layout ⟨5, 7, 0⟩).dir_start + (compute_layout ⟨5, 7, 0⟩).dir_sectors ∧
      (cmd_format ⟨5, 7, 0⟩ fs0).2 = [48, 10] ∧
      (cmd_format ⟨5, 7, 0⟩ fs0).1.formatted = true := by
  refine ⟨by decide, by decide, by decide⟩

end FsSrv

namespace FsSrv

open DiskSrv

/-- Specification helper: the raw 64 bytes of directory slot `slot` as
persisted on the disk. -/
def slotBytes (L : Layout) (img : Img) (slot : Nat) : List Nat :=
  ((img (L.dir_start + slot / 2)).drop ((slot % 2) * 64)).take 64

/-- Specification helper: the number of FREE entries of the FAT cache over
the blocks of the disk. -/
def freeCount (L : Layout) (v : Nat → Nat) : Nat :=
  ((List.range L.total_blocks).filter fun i => v i = FAT_FREE).length

/-- Specification helper: `bs` is the exact sequence of blocks of the chain
that starts at `first` and follows the FAT links to EOF. -/
def isChain (v : Nat → Nat) : Nat → List Nat → Bool
  | first, [] => decide (first = FAT_EOF)
  | first, b :: rest => decide (first = b) && isChain v (v b) rest

/-- Specification helper: a well-formed chain of data blocks — the listed
blocks follow the links from `first` to EOF, are pairwise distinct, and all
lie in the data area. -/
def chainOk (L : Layout) (v : Nat → Nat) (first : Nat) (bs : List Nat) : Prop :=
  isChain v first bs = true ∧ bs.Nodup ∧
    ∀ b ∈ bs, dataStart L ≤ b ∧ b < L.total_blocks

instance chainOk_decidable (L : Layout) (v : Nat → Nat) (first : Nat) (bs : List Nat) :
    Decidable (chainOk L v first bs) := by
  unfold chainOk
  infer_instance

set_option maxRecDepth 16384 in
/-- Claim C3, counterexample: on the 6-by-6 disk whose single data block
holds the one-byte file `a`, the request `W a 200` needs 2 blocks but (after
freeing the old chain in the cache) only 1 is FREE.  The reply is 2 as the
claim says, but the file is not left truncated on disk: the persisted
directory entry still has length 1 and first block 35 (the out-of-space path
returns before flushing the FAT or rewriting the directory slot), not
length 0 and first EOF. -/
theorem claim_C3_counterexample :
    (200 + 127) / 128 = 2 ∧
    freeCount L66 (upd fatB66 35 FAT_FREE) = 1 ∧
    (cmd_write g66 stB66 [97] (List.replicate 200 7)).2 = [50, 10] ∧
    (dirent_unpack (slotBytes L66
        (cmd_write g66 stB66 [97] (List.replicate 200 7)).1.img 0)).length = 1 ∧
    (dirent_unpack (slotBytes L66
        (cmd_write g66 stB66 [97] (List.replicate 200 7)).1.img 0)).first = 35 ∧
    (1 : Nat) ≠ 0 ∧ (35 : Nat) ≠ FAT_EOF := by
  refine ⟨by norm_num, by decide, by decide, by decide, by decide, by decide, by decide⟩

end FsSrv

namespace FsSrv

open DiskSrv

/-- Specification helper: directory slot `i` holds a used entry whose stored
name matches `nm` under the server's `strncmp` test. -/
def slotMatches (L : Layout) (img : Img) (nm : List Nat) (i : Nat) : Prop :=
  (dirent_unpack (slotBytes L img i)).used ≠ 0 ∧
    strncmp_eq (dirent_unpack (slotBytes L img i)).name nm 32 = true

instance slotMatches_decidable (L : Layout) (img : Img) (nm : List Nat) (i : Nat) :
    Decidable (slotMatches L img nm i) := by
  unfold slotMatches
  infer_instance

theorem dir_read_entry_eq (g : Geom) (L : Layout) (img : Img) (i : Nat)
    (hS : 1 ≤ g.S) (hv : L.dir_start + i / 2 < g.C * g.S) :
    dir_read_entry g L img i = some (dirent_unpack (slotBytes L img i)) := by
  unfold dir_read_entry
  rw [disk_read_idx_eq g hS, if_pos hv]
  rfl

/-- Helper: when every scanned directory sector is readable, the name scan
either reports not-found (and then no scanned slot matches) or returns the
first matching slot with its unpacked entry. -/
theorem dir_find_in_cases (g : Geom) (L : Layout) (img : Img) (nm : List Nat)
    (hS : 1 ≤ g.S) (slots : List Nat)
    (hv : ∀ i ∈ slots, L.dir_start + i / 2 < g.C * g.S) :
    (dir_find_in g L img nm slots = some none ∧
      ∀ i ∈ slots, ¬ slotMatches L img nm i) ∨
    (∃ pre i post, slots = pre ++ i :: post ∧
      (∀ j ∈ pre, ¬ slotMatches L img nm j) ∧ slotMatches L img nm i ∧
      dir_find_in g L img nm slots = some (some (i, dirent_unpack (slotBytes L img i)))) := by
  induction slots with
  | nil =>
    left
    exact ⟨rfl, by simp⟩
  | cons a rest ih =>
    have hva := hv a (List.mem_cons_self a rest)
    have hread := dir_read_entry_eq g L img a hS hva
    by_cases hm : slotMatches L img nm a
    · right
      refine ⟨[], a, rest, rfl, by simp, hm, ?_⟩
      simp only [dir_find_in]
      rw [hread]
      dsimp only
      exact if_pos hm
    · rcases ih (fun i hi => hv i (List.mem_cons_of_mem _ hi)) with
        ⟨hres, hall⟩ | ⟨pre, i, post, heq, hpre, hi, hres⟩
      · left
        constructor
        · simp only [dir_find_in]
          rw [hread]
          dsimp only
          exact (if_neg hm).trans hres
        · intro i hi
          rcases List.mem_cons.1 hi with h | h
          · subst h; exact hm
          · exact hall i h
      · right
        refine ⟨a :: pre, i, post, by rw [heq, List.cons_append], ?_, hi, ?_⟩
        · intro j hj
          rcases List.mem_cons.1 hj with h | h
          · subst h; exact hm
          · exact hpre j h
        · simp only [dir_find_in]
          rw [hread]
          dsimp only
          exact (if_neg hm).trans hres

/-- Helper: the free-slot scan only returns a scanned slot index. -/
theorem dir_find_free_in_mem (g : Geom) (L : Layout) (img : Img) :
    ∀ (slots : List Nat) (i : Nat),
      dir_find_free_in g L img slots = some (some i) → i ∈ slots := by
  intro slots
  induction slots with
  | nil =>
    intro i h
    exact absurd h (by simp [dir_find_free_in])
  | cons a rest ih =>
    intro i h
    simp only [dir_find_free_in] at h
    cases hre : dir_read_entry g L img a with
    | none =>
      rw [hre] at h
      exact absurd h (by simp)
    | some e =>
      rw [hre] at h
      dsimp only at h
      by_cases hu : e.used = 0
      · rw [if_pos hu] at h
        have hai : a = i := by simpa using h
        rw [← hai]
        exact List.mem_cons_self a rest
      · rw [if_neg hu] at h
        exact List.mem_cons_of_mem _ (ih i h)

/-- Helper: the packed name buffer is always exactly 32 bytes. -/
theorem pack_name_length (nm : List Nat) : (pack_name nm).length = 32 := by
  unfold pack_name
  dsimp only
  simp only [List.length_append, List.length_replicate]
  have h : ((nm.takeWhile fun b => b ≠ 0).take 31).length ≤ 31 := by
    rw [List.length_take]
    omega
  omega

/-- Helper: a NUL-free name of at most 31 bytes is stored as itself followed
by zero padding. -/
theorem pack_name_of_valid (nm : List Nat) (hnz : ∀ x ∈ nm, x ≠ 0)
    (h31 : nm.length ≤ 31) :
    pack_name nm = nm ++ List.replicate (32 - nm.length) 0 := by
  unfold pack_name
  dsimp only
  have h1 : nm.takeWhile (fun b => b ≠ 0) = nm :=
    List.takeWhile_eq_self_iff.2 (by
      intro x hx
      simpa using hnz x hx)
  rw [h1, List.take_of_length_le h31]

/-- Helper: truncating the stored name to 31 bytes and appending the forced
NUL reproduces the stored name, for a valid NUL-free name. -/
theorem pack_name_take31 (nm : List Nat) (hnz : ∀ x ∈ nm, x ≠ 0)
    (h31 : nm.length ≤ 31) :
    (pack_name nm).take 31 ++ [0] = nm ++ List.replicate (32 - nm.length) 0 := by
  rw [pack_name_of_valid nm hnz h31]
  rw [show (31 : Nat) = nm.length + (31 - nm.length) from by omega]
  rw [List.take_append]
  rw [List.take_replicate]
  rw [show min (31 - nm.length) (32 - nm.length) = 31 - nm.length from by omega]
  rw [List.append_assoc]
  rw [show (32 - nm.length) = (31 - nm.length) + 1 from by omega]
  rw [List.replicate_succ']

/-- Helper: the server's bounded string compare accepts a NUL-free name
padded with NUL bytes against the name itself. -/
theorem strncmp_self_padded :
    ∀ (nm : List Nat) (k n : Nat), (∀ x ∈ nm, x ≠ 0) → nm.length < n → 1 ≤ k →
      strncmp_eq (nm ++ List.replicate k 0) nm n = true := by
  intro nm
  induction nm with
  | nil =>
    intro k n _ hn hk
    obtain ⟨m, rfl⟩ : ∃ m, n = m + 1 := ⟨n - 1, by omega⟩
    obtain ⟨k0, rfl⟩ : ∃ k0, k = k0 + 1 := ⟨k - 1, by omega⟩
    simp [strncmp_eq, List.replicate_succ]
  | cons a rest ih =>
    intro k n hnz hn hk
    obtain ⟨m, rfl⟩ : ∃ m, n = m + 1 := ⟨n - 1, by omega⟩
    have ha : a ≠ 0 := hnz a (List.mem_cons_self _ _)
    simp only [List.cons_append, strncmp_eq, List.headD_cons, List.tail_cons]
    rw [if_neg (fun hc => hc rfl), if_neg ha]
    have hn2 : rest.length < m := by
      simp only [List.length_cons] at hn
      omega
    exact ih k m (fun x hx => hnz x (List.mem_cons_of_mem _ hx)) hn2 hk


end FsSrv

namespace FsSrv

open DiskSrv

theorem isChain_congr (v v' : Nat → Nat) (first : Nat) (bs : List Nat)
    (h : ∀ x ∈ bs, v' x = v x) : isChain v' first bs = isChain v first bs := by
  induction bs generalizing first with
  | nil => rfl
  | cons b rest ih =>
    simp only [isChain]
    rw [h b (List.mem_cons_self b rest),
      ih (v b) fun x hx => h x (List.mem_cons_of_mem _ hx)]

theorem nodup_bounded_length (l : List Nat) (n : Nat) (hnd : l.Nodup)
    (hb : ∀ x ∈ l, x < n) : l.length ≤ n := by
  classical
  have hsub : l.toFinset ⊆ Finset.range n := fun x hx =>
    Finset.mem_range.2 (hb x (List.mem_toFinset.1 hx))
  have hcard := Finset.card_le_card hsub
  rwa [List.toFinset_card_of_nodup hnd, Finset.card_range] at hcard

/-- Helper: on a well-formed chain, `free_chain` frees exactly the chain's
blocks. -/
theorem free_chain_spec (v : Nat → Nat) (first : Nat) (bs : List Nat) (fuel : Nat)
    (hch : isChain v first bs = true) (hnd : bs.Nodup)
    (hne : ∀ x ∈ bs, x ≠ FAT_EOF) (hfuel : bs.length + 1 ≤ fuel) :
    free_chain v fuel first = fun i => if i ∈ bs then FAT_FREE else v i := by
  induction bs generalizing v first fuel with
  | nil =>
    have hf : first = FAT_EOF := by simpa [isChain] using hch
    funext i
    simp only [List.not_mem_nil, if_false]
    cases fuel with
    | zero => rfl
    | succ f => simp [free_chain, hf]
  | cons b rest ih =>
    obtain ⟨hfb, hrest⟩ : first = b ∧ isChain v (v b) rest = true := by
      simpa [isChain] using hch
    rw [hfb]
    cases fuel with
    | zero => exact absurd hfuel (by simp)
    | succ f =>
      have hbne : b ≠ FAT_EOF := hne b (List.mem_cons_self b rest)
      have hb_notin : b ∉ rest := (List.nodup_cons.1 hnd).1
      simp only [free_chain, if_neg hbne]
      by_cases hvb : v b = FAT_EOF
      · have hrest_nil : rest = [] := by
          cases rest with
          | nil => rfl
          | cons r rs =>
            exfalso
            obtain ⟨h1, -⟩ : v b = r ∧ isChain v (v r) rs = true := by
              simpa [isChain] using hrest
            exact hne r (List.mem_cons_of_mem _ (List.mem_cons_self r rs))
              (by rw [← h1, hvb])
        subst hrest_nil
        rw [if_pos hvb]
        funext i
        by_cases hib : i = b
        · subst hib; simp [upd_self]
        · simp [upd_other _ _ _ _ hib, hib]
      · rw [if_neg hvb]
        have hch2 : isChain (upd v b FAT_FREE) (v b) rest = true := by
          rw [isChain_congr (v := v)]
          · exact hrest
          · intro x hx
            exact upd_other v b x FAT_FREE fun he => hb_notin (he ▸ hx)
        have hrw := ih (upd v b FAT_FREE) (v b) f hch2 (List.nodup_cons.1 hnd).2
          (fun x hx => hne x (List.mem_cons_of_mem _ hx)) (by simp at hfuel ⊢; omega)
        rw [hrw]
        funext i
        by_cases hib : i = b
        · subst hib
          simp [hb_notin, upd_self]
        · by_cases hir : i ∈ rest
          · simp [hir]
          · simp [hir, hib, upd_other _ _ _ _ hib]

/-- Helper: the FAT flush succeeds when every FAT sector index lies inside
the geometry. -/
theorem fat_flush_ok (g : Geom) (L : Layout) (img : Img) (v : Nat → Nat)
    (hS : 1 ≤ g.S) (hfat : ∀ t, t < L.fat_sectors → L.fat_start + t < g.C * g.S) :
    (fat_flush g L img v).2 = true := by
  unfold fat_flush
  rw [wlist_ok_iff g hS]
  intro p hp
  obtain ⟨t, ht, rfl⟩ := List.mem_map.1 hp
  exact hfat t (List.mem_range.1 ht)

/-- Helper: the FAT flush only writes FAT sectors. -/
theorem fat_flush_preserve (g : Geom) (L : Layout) (img : Img) (v : Nat → Nat)
    (j : Nat) (hS : 1 ≤ g.S) (hj : ∀ t, t < L.fat_sectors → L.fat_start + t ≠ j) :
    (fat_flush g L img v).1 j = img j := by
  unfold fat_flush
  apply wlist_img_notin g hS
  intro p hp
  obtain ⟨t, ht, rfl⟩ := List.mem_map.1 hp
  exact hj t (List.mem_range.1 ht)

theorem dirent_pack_length (e : Dirent) : (dirent_pack e).length = 64 := by
  simp [dirent_pack, u32le, List.length_append, List.length_take]
  omega

/-- Helper: writing a directory entry into a readable 128-byte sector
replaces the 64-byte window of that slot and nothing else. -/
theorem dir_write_entry_eq (g : Geom) (L : Layout) (img : Img) (slot : Nat)
    (e : Dirent) (hS : 1 ≤ g.S) (hv : L.dir_start + slot / 2 < g.C * g.S)
    (hlen : (img (L.dir_start + slot / 2)).length = 128) :
    dir_write_entry g L img slot e = some (upd img (L.dir_start + slot / 2)
      ((img (L.dir_start + slot / 2)).take (slot % 2 * 64) ++ dirent_pack e ++
        (img (L.dir_start + slot / 2)).drop (slot % 2 * 64 + 64))) := by
  have hm2 : slot % 2 < 2 := Nat.mod_lt _ (by omega)
  unfold dir_write_entry
  rw [disk_read_idx_eq g hS, if_pos hv]
  dsimp only
  rw [disk_write_idx_eq g hS, if_pos hv]
  have htk : List.take 128
      ((img (L.dir_start + slot / 2)).take (slot % 2 * 64) ++ dirent_pack e ++
        (img (L.dir_start + slot / 2)).drop (slot % 2 * 64 + 64)) =
      (img (L.dir_start + slot / 2)).take (slot % 2 * 64) ++ dirent_pack e ++
        (img (L.dir_start + slot / 2)).drop (slot % 2 * 64 + 64) := by
    apply List.take_of_length_le
    simp [List.length_append, List.length_take, List.length_drop, hlen, dirent_pack_length]
    omega
  rw [htk]

/-- Helper: after the sector surgery the written slot holds exactly the
packed entry. -/
theorem slotBytes_write_self (L : Layout) (img : Img) (slot : Nat) (e : Dirent)
    (hlen : (img (L.dir_start + slot / 2)).length = 128) :
    slotBytes L (upd img (L.dir_start + slot / 2)
      ((img (L.dir_start + slot / 2)).take (slot % 2 * 64) ++ dirent_pack e ++
        (img (L.dir_start + slot / 2)).drop (slot % 2 * 64 + 64))) slot =
      dirent_pack e := by
  have hm2 : slot % 2 < 2 := Nat.mod_lt _ (by omega)
  unfold slotBytes
  rw [upd_self]
  rw [List.append_assoc]
  rw [List.drop_left' (by simp [List.length_take, hlen]; omega)]
  rw [List.take_left' (dirent_pack_length e)]

/-- Helper: the sector surgery leaves the other slot of the same sector
unchanged. -/
theorem slotBytes_write_neighbor (L : Layout) (img : Img) (slot j : Nat) (e : Dirent)
    (hlen : (img (L.dir_start + slot / 2)).length = 128)
    (hsec : j / 2 = slot / 2) (hne : j % 2 ≠ slot % 2) :
    slotBytes L (upd img (L.dir_start + slot / 2)
      ((img (L.dir_start + slot / 2)).take (slot % 2 * 64) ++ dirent_pack e ++
        (img (L.dir_start + slot / 2)).drop (slot % 2 * 64 + 64))) j =
      slotBytes L img j := by
  have hm2 : slot % 2 < 2 := Nat.mod_lt _ (by omega)
  have hj2 : j % 2 < 2 := Nat.mod_lt _ (by omega)
  unfold slotBytes
  rw [hsec, upd_self]
  have hcase : slot % 2 = 0 ∨ slot % 2 = 1 := by omega
  rcases hcase with h0 | h1
  · have hj1 : j % 2 = 1 := by omega
    rw [h0, hj1]
    simp only [Nat.zero_mul, List.take_zero, List.nil_append, Nat.zero_add, Nat.one_mul]
    rw [List.drop_left' (dirent_pack_length e)]
  · have hj0 : j % 2 = 0 := by omega
    rw [h1, hj0]
    simp only [Nat.one_mul, Nat.zero_mul, List.drop_zero]
    have hdrop : (img (L.dir_start + slot / 2)).drop (64 + 64) = [] := by
      apply List.drop_eq_nil_of_le
      omega
    rw [hdrop, List.append_nil]
    rw [List.take_left' (by simp [List.length_take, hlen])]

/-- Helper: the sector surgery leaves every other directory sector
unchanged. -/
theorem slotBytes_upd_other_sector (L : Layout) (img : Img) (sec : Nat)
    (b : List Nat) (j : Nat) (h : L.dir_start + j / 2 ≠ sec) :
    slotBytes L (upd img sec b) j = slotBytes L img j := by
  unfold slotBytes
  rw [upd_other _ _ _ _ h]

end FsSrv

namespace FsSrv

open DiskSrv

/-- Claim C7: on a formatted filesystem, deleting an existing file frees in
the FAT exactly the blocks visited by walking the chain from the entry's
first block to EOF, overwrites the 64-byte directory slot with zero bytes,
and replies 0; a subsequent `R` of the same name then replies `1 0 `. -/
theorem claim_C7_delete_frees (g : Geom) (st : FsState) (nm : List Nat)
    (v : Nat → Nat) (s : Nat) (e : Dirent) (bs : List Nat)
    (hS : 1 ≤ g.S)
    (hfmt : st.formatted = true)
    (hfat : st.fat = some v)
    (hdirv : ∀ i, i < st.L.dir_entries → st.L.dir_start + i / 2 < g.C * g.S)
    (hfatv : ∀ t, t < st.L.fat_sectors → st.L.fat_start + t < g.C * g.S)
    (hfd : ∀ t, t < st.L.fat_sectors → ∀ i, i < st.L.dir_entries →
      st.L.fat_start + t ≠ st.L.dir_start + i / 2)
    (hbl : (st.img (st.L.dir_start + s / 2)).length = 128)
    (hfind : dir_find_by_name g st.L st.img nm = some (some (s, e)))
    (hsle : s < st.L.dir_entries)
    (huniq : ∀ j, j < st.L.dir_entries → slotMatches st.L st.img nm j → j = s)
    (hch : chainOk st.L v e.first bs)
    (hEOF : st.L.total_blocks ≤ FAT_EOF) :
    (cmd_delete g st nm).2 = [48, 10] ∧
    (∃ v2, (cmd_delete g st nm).1.fat = some v2 ∧
      ∀ i, v2 i = if i ∈ bs then FAT_FREE else v i) ∧
    slotBytes st.L (cmd_delete g st nm).1.img s = List.replicate 64 0 ∧
    (cmd_read g (cmd_delete g st nm).1 nm).2 = [49, 32, 48, 32, 10] := by
  obtain ⟨hchain, hnd, hbounds⟩ := hch
  have hbne : ∀ x ∈ bs, x ≠ FAT_EOF := fun x hx =>
    Nat.ne_of_lt (lt_of_lt_of_le (hbounds x hx).2 hEOF)
  have hfmt2 : ¬ (st.formatted = false) := by rw [hfmt]; simp
  have hens : fat_ensure g st = some v := by unfold fat_ensure; rw [hfat]
  have hfree_eq : (if e.first ≠ FAT_EOF then
      free_chain v (st.L.total_blocks + 1) e.first else v) =
      (fun i => if i ∈ bs then FAT_FREE else v i) := by
    by_cases hef : e.first = FAT_EOF
    · rw [if_neg (fun hc => hc hef)]
      cases bs with
      | nil => funext i; simp
      | cons b rest =>
        exfalso
        obtain ⟨h1, -⟩ : e.first = b ∧ isChain v (v b) rest = true := by
          simpa [isChain] using hchain
        exact hbne b (List.mem_cons_self b rest) (by rw [← h1, hef])
    · rw [if_pos hef]
      exact free_chain_spec v e.first bs _ hchain hnd hbne
        (by
          have := nodup_bounded_length bs st.L.total_blocks hnd
            (fun x hx => (hbounds x hx).2)
          omega)
  have hfok0 := fat_flush_ok g st.L st.img
    (fun i => if i ∈ bs then FAT_FREE else v i) hS hfatv
  have hpres0 := fun j hj => fat_flush_preserve g st.L st.img
    (fun i => if i ∈ bs then FAT_FREE else v i) j hS hj
  cases hff : fat_flush g st.L st.img (fun i => if i ∈ bs then FAT_FREE else v i) with
  | mk img2 okf =>
    rw [hff] at hfok0
    have hokf : okf = true := hfok0
    subst hokf
    have himg2sec : img2 (st.L.dir_start + s / 2) = st.img (st.L.dir_start + s / 2) := by
      have := hpres0 (st.L.dir_start + s / 2) (fun t ht => hfd t ht s hsle)
      rw [hff] at this
      exact this
    have himg2dir : ∀ j, j < st.L.dir_entries →
        img2 (st.L.dir_start + j / 2) = st.img (st.L.dir_start + j / 2) := by
      intro j hj
      have := hpres0 (st.L.dir_start + j / 2) (fun t ht => hfd t ht j hj)
      rw [hff] at this
      exact this
    have hlen2 : (img2 (st.L.dir_start + s / 2)).length = 128 := by
      rw [himg2sec]; exact hbl
    have hdel : cmd_delete g st nm =
        (⟨upd img2 (st.L.dir_start + s / 2)
            ((img2 (st.L.dir_start + s / 2)).take (s % 2 * 64) ++
              dirent_pack ⟨List.replicate 32 0, 0, 0, 0⟩ ++
              (img2 (st.L.dir_start + s / 2)).drop (s % 2 * 64 + 64)),
          st.L, some (fun i => if i ∈ bs then FAT_FREE else v i), st.formatted⟩,
          [48, 10]) := by
      unfold cmd_delete
      rw [if_neg hfmt2, hens]
      dsimp only
      rw [hfind]
      dsimp only
      rw [hfree_eq, hff]
      dsimp only
      rw [dir_write_entry_eq g st.L img2 s ⟨List.replicate 32 0, 0, 0, 0⟩ hS
        (hdirv s hsle) hlen2]
    have hblank : dirent_pack ⟨List.replicate 32 0, 0, 0, 0⟩ = List.replicate 64 0 := by
      decide
    have hslot_self : slotBytes st.L (cmd_delete g st nm).1.img s = List.replicate 64 0 := by
      rw [hdel]
      rw [slotBytes_write_self st.L img2 s _ hlen2, hblank]
    have hslot_other : ∀ j, j < st.L.dir_entries → j ≠ s →
        slotBytes st.L (cmd_delete g st nm).1.img j = slotBytes st.L st.img j := by
      intro j hj hjs
      rw [hdel]
      by_cases hs2 : j / 2 = s / 2
      · have hm : j % 2 ≠ s % 2 := by omega
        rw [slotBytes_write_neighbor st.L img2 s j _ hlen2 hs2 hm]
        unfold slotBytes
        rw [hs2, himg2sec, ← hs2]
      · have hsec : st.L.dir_start + j / 2 ≠ st.L.dir_start + s / 2 := by omega
        rw [slotBytes_upd_other_sector st.L img2 _ _ j hsec]
        unfold slotBytes
        rw [himg2dir j hj]
    have hnomatch : ∀ j ∈ List.range st.L.dir_entries,
        ¬ slotMatches st.L (cmd_delete g st nm).1.img nm j := by
      intro j hj hmj
      have hjlt := List.mem_range.1 hj
      by_cases hjs : j = s
      · subst hjs
        have : (dirent_unpack (slotBytes st.L (cmd_delete g st nm).1.img j)).used = 0 := by
          rw [hslot_self]
          decide
        exact hmj.1 this
      · have heqb := hslot_other j hjlt hjs
        have hmj2 : slotMatches st.L st.img nm j := by
          unfold slotMatches at hmj ⊢
          rw [← heqb]
          exact hmj
        exact hjs (huniq j hjlt hmj2)
    refine ⟨by rw [hdel], ⟨fun i => if i ∈ bs then FAT_FREE else v i,
      by rw [hdel], fun i => rfl⟩, hslot_self, ?_⟩
    rcases dir_find_in_cases g st.L (cmd_delete g st nm).1.img nm hS
        (List.range st.L.dir_entries)
        (fun i hi => hdirv i (List.mem_range.1 hi)) with
      ⟨hres, -⟩ | ⟨pre, i, post, heq, hpre, hi, hres⟩
    · have hLeq : (cmd_delete g st nm).1.L = st.L := by rw [hdel]
      have hfmt3 : (cmd_delete g st nm).1.formatted = true := by rw [hdel]; exact hfmt
      have hfat3 : (cmd_delete g st nm).1.fat =
          some (fun i => if i ∈ bs then FAT_FREE else v i) := by rw [hdel]
      unfold cmd_read
      rw [if_neg (by rw [hfmt3]; simp)]
      have hens3 : fat_ensure g (cmd_delete g st nm).1 =
          some (fun i => if i ∈ bs then FAT_FREE else v i) := by
        unfold fat_ensure; rw [hfat3]
      rw [hens3]
      dsimp only
      rw [show dir_find_by_name g (cmd_delete g st nm).1.L
          (cmd_delete g st nm).1.img nm = some none by
        unfold dir_find_by_name
        rw [hLeq]
        exact hres]
    · exfalso
      have hmem : i ∈ List.range st.L.dir_entries := by
        rw [heq]
        exact List.mem_append.2 (Or.inr (List.mem_cons_self _ _))
      exact hnomatch i hmem hi

end FsSrv

namespace FsSrv

open DiskSrv

theorem claim_C7_witness :
    (dir_find_by_name g66 stB66.L stB66.img [97] =
      some (some (0, dirent_unpack (slotBytes stB66.L stB66.img 0)))) ∧
    chainOk stB66.L fatB66 (dirent_unpack (slotBytes stB66.L stB66.img 0)).first [35] ∧
    ((cmd_delete g66 stB66 [97]).2 = [48, 10] ∧
      (∃ v2, (cmd_delete g66 stB66 [97]).1.fat = some v2 ∧
        ∀ i, v2 i = if i ∈ [35] then FAT_FREE else fatB66 i) ∧
      slotBytes stB66.L (cmd_delete g66 stB66 [97]).1.img 0 = List.replicate 64 0 ∧
      (cmd_read g66 (cmd_delete g66 stB66 [97]).1 [97]).2 = [49, 32, 48, 32, 10]) :=
  ⟨by decide, by decide,
    claim_C7_delete_frees g66 stB66 [97] fatB66 0
      (dirent_unpack (slotBytes stB66.L stB66.img 0)) [35]
      (by decide) rfl rfl (by decide) (by decide) (by decide) (by decide)
      (by decide) (by decide) (by decide) (by decide) (by decide)⟩

end FsSrv

namespace FsSrv

open DiskSrv

/-- Specification helper: number of FREE FAT entries at index `start` or
above, the pool `find_free_block` allocates from. -/
def countFree (L : Layout) (v : Nat → Nat) (start : Nat) : Nat :=
  ((List.range L.total_blocks).filter fun i =>
    decide (start ≤ i) && decide (v i = FAT_FREE)).length

theorem find_free_from_some (L : Layout) (v : Nat → Nat) (i fuel b : Nat)
    (h : find_free_from L v i fuel = some b) :
    i ≤ b ∧ b < L.total_blocks ∧ v b = FAT_FREE := by
  induction fuel generalizing i with
  | zero => exact absurd h (by simp [find_free_from])
  | succ f ih =>
    rw [find_free_from] at h
    by_cases hi : i < L.total_blocks
    · rw [if_pos hi] at h
      by_cases hv : v i = FAT_FREE
      · rw [if_pos hv] at h
        obtain rfl : i = b := by simpa using h
        exact ⟨le_refl _, hi, hv⟩
      · rw [if_neg hv] at h
        obtain ⟨h1, h2, h3⟩ := ih (i + 1) h
        exact ⟨by omega, h2, h3⟩
    · rw [if_neg hi] at h
      exact absurd h (by simp)

theorem find_free_block_some (L : Layout) (v : Nat → Nat) (start b : Nat)
    (h : find_free_block L v start = some b) :
    start ≤ b ∧ b < L.total_blocks ∧ v b = FAT_FREE :=
  find_free_from_some L v start _ b h

theorem filter_length_mono (l : List Nat) (p q : Nat → Bool)
    (h : ∀ x ∈ l, q x = true → p x = true) :
    (l.filter q).length ≤ (l.filter p).length := by
  induction l with
  | nil => exact le_refl _
  | cons a rest ih =>
    have ih2 := ih fun x hx => h x (List.mem_cons_of_mem _ hx)
    by_cases hqa : q a = true
    · have hpa := h a (List.mem_cons_self a rest) hqa
      rw [List.filter_cons_of_pos hqa, List.filter_cons_of_pos hpa]
      simpa using ih2
    · rw [List.filter_cons_of_neg hqa]
      by_cases hpa : p a = true
      · rw [List.filter_cons_of_pos hpa]
        simp only [List.length_cons]
        omega
      · rw [List.filter_cons_of_neg hpa]
        exact ih2

theorem filter_length_remove (l : List Nat) (hnd : l.Nodup) (p q : Nat → Bool)
    (b : Nat) (hb : b ∈ l) (hpb : p b = true) (hqb : q b = false)
    (himp : ∀ x ∈ l, q x = true → p x = true) :
    (l.filter q).length + 1 ≤ (l.filter p).length := by
  induction l with
  | nil => exact absurd hb (List.not_mem_nil b)
  | cons a rest ih =>
    obtain ⟨hnda, hndr⟩ := List.nodup_cons.1 hnd
    rcases List.mem_cons.1 hb with rfl | hbr
    · rw [List.filter_cons_of_pos hpb, List.filter_cons_of_neg (by simp [hqb])]
      simp only [List.length_cons]
      have := filter_length_mono rest p q fun x hx => himp x (List.mem_cons_of_mem _ hx)
      omega
    · have ihr := ih hndr hbr fun x hx => himp x (List.mem_cons_of_mem _ hx)
      by_cases hqa : q a = true
      · have hpa := himp a (List.mem_cons_self a rest) hqa
        rw [List.filter_cons_of_pos hqa, List.filter_cons_of_pos hpa]
        simp only [List.length_cons]
        omega
      · rw [List.filter_cons_of_neg hqa]
        by_cases hpa : p a = true
        · rw [List.filter_cons_of_pos hpa]
          simp only [List.length_cons]
          omega
        · rw [List.filter_cons_of_neg hpa]
          exact ihr

/-- Helper: a successful allocation of `k` blocks implies at least `k` FREE
entries at index `start` or above (each loop iteration consumes exactly
one). -/
theorem alloc_ok_le (L : Layout) (start : Nat) (hstart : 1 ≤ start) :
    ∀ (k : Nat) (v : Nat → Nat) (head prev : Nat) (v2 : Nat → Nat) (hd2 : Nat),
      alloc_loop L start v k head prev = .ok v2 hd2 → k ≤ countFree L v start := by
  intro k
  induction k with
  | zero =>
    intro v head prev v2 hd2 _
    exact Nat.zero_le _
  | succ k ih =>
    intro v head prev v2 hd2 halloc
    rw [alloc_loop] at halloc
    cases hfb : find_free_block L v start with
    | none =>
      rw [hfb] at halloc
      cases halloc
    | some b =>
      rw [hfb] at halloc
      dsimp only at halloc
      obtain ⟨hsb, hbN, hvb⟩ := find_free_block_some L v start b hfb
      have hb1 : 1 ≤ b := le_trans hstart hsb
      have hEOFne : FAT_EOF ≠ FAT_FREE := by decide
      by_cases hprev : prev ≠ FAT_EOF
      · rw [if_pos hprev, if_pos hprev] at halloc
        have hrec := ih _ _ _ _ _ halloc
        have hstep : countFree L (upd (upd v b FAT_EOF) prev b) start + 1 ≤
            countFree L v start := by
          unfold countFree
          apply filter_length_remove _ (List.nodup_range _) _ _ b
            (List.mem_range.2 hbN)
          · simp [hsb, hvb]
          · by_cases hbp : b = prev
            · rw [hbp] at hb1
              simp [upd, hbp, FAT_FREE]
              omega
            · simp [upd, hbp, FAT_EOF, FAT_FREE]
          · intro x hx hqx
            simp only [Bool.and_eq_true, decide_eq_true_eq] at hqx ⊢
            obtain ⟨hx1, hx2⟩ := hqx
            refine ⟨hx1, ?_⟩
            by_cases hxp : x = prev
            · exfalso
              rw [hxp, upd_self] at hx2
              simp [FAT_FREE] at hx2
              omega
            · rw [upd_other _ _ _ _ hxp] at hx2
              by_cases hxb : x = b
              · exfalso
                rw [hxb, upd_self] at hx2
                exact hEOFne hx2
              · rwa [upd_other _ _ _ _ hxb] at hx2
        omega
      · rw [if_neg hprev, if_neg hprev] at halloc
        have hrec := ih _ _ _ _ _ halloc
        have hstep : countFree L (upd v b FAT_EOF) start + 1 ≤
            countFree L v start := by
          unfold countFree
          apply filter_length_remove _ (List.nodup_range _) _ _ b
            (List.mem_range.2 hbN)
          · simp [hsb, hvb]
          · simp [upd, FAT_EOF, FAT_FREE]
          · intro x hx hqx
            simp only [Bool.and_eq_true, decide_eq_true_eq] at hqx ⊢
            obtain ⟨hx1, hx2⟩ := hqx
            refine ⟨hx1, ?_⟩
            by_cases hxb : x = b
            · exfalso
              rw [hxb, upd_self] at hx2
              exact hEOFne hx2
            · rwa [upd_other _ _ _ _ hxb] at hx2
        omega

end FsSrv

namespace FsSrv

open DiskSrv

/-- Claim C3 (amended): when `W name l` (with `l > 0`) finds fewer than
`ceil(l / 128)` FREE blocks after freeing the old chain, the service replies
2 — but the file is left truncated only in the in-memory FAT cache: the
out-of-space path returns before flushing the FAT or rewriting the
directory slot, so the disk image is completely unchanged and the persisted
directory entry keeps its old length and first block. -/
theorem claim_C3_nospace_disk_unchanged (g : Geom) (st : FsState) (nm : List Nat)
    (v : Nat → Nat) (s : Nat) (e : Dirent) (bs : List Nat) (data : List Nat)
    (hfmt : st.formatted = true)
    (hfat : st.fat = some v)
    (hfind : dir_find_by_name g st.L st.img nm = some (some (s, e)))
    (hused : e.used ≠ 0)
    (hch : chainOk st.L v e.first bs)
    (hEOF : st.L.total_blocks ≤ FAT_EOF)
    (hstart : 1 ≤ dataStart st.L)
    (hlen0 : data.length ≠ 0)
    (hcnt : countFree st.L (fun i => if i ∈ bs then FAT_FREE else v i)
      (dataStart st.L) < ((data.length + 127) % U32M) / 128) :
    (cmd_write g st nm data).2 = [50, 10] ∧
    (∀ i, (cmd_write g st nm data).1.img i = st.img i) := by
  obtain ⟨hchain, hnd, hbounds⟩ := hch
  have hbne : ∀ x ∈ bs, x ≠ FAT_EOF := fun x hx =>
    Nat.ne_of_lt (lt_of_lt_of_le (hbounds x hx).2 hEOF)
  have hfmt2 : ¬ (st.formatted = false) := by rw [hfmt]; simp
  have hens : fat_ensure g st = some v := by unfold fat_ensure; rw [hfat]
  have hfree_eq : (if e.used ≠ 0 ∧ e.first ≠ FAT_EOF then
      free_chain v (st.L.total_blocks + 1) e.first else v) =
      (fun i => if i ∈ bs then FAT_FREE else v i) := by
    by_cases hef : e.first = FAT_EOF
    · rw [if_neg (fun hc => hc.2 hef)]
      cases bs with
      | nil => funext i; simp
      | cons b rest =>
        exfalso
        obtain ⟨h1, -⟩ : e.first = b ∧ isChain v (v b) rest = true := by
          simpa [isChain] using hchain
        exact hbne b (List.mem_cons_self b rest) (by rw [← h1, hef])
    · rw [if_pos ⟨hused, hef⟩]
      exact free_chain_spec v e.first bs _ hchain hnd hbne
        (by
          have := nodup_bounded_length bs st.L.total_blocks hnd
            (fun x hx => (hbounds x hx).2)
          omega)
  have hwrite : write_whole_file g st.L v st.img e data =
      WRes.nospace (match alloc_loop st.L (dataStart st.L)
          (fun i => if i ∈ bs then FAT_FREE else v i)
          (((data.length + 127) % U32M) / 128) FAT_EOF FAT_EOF with
        | .fail vf => vf
        | .ok vf _ => vf) st.img
        { e with first := FAT_EOF, length := data.length } := by
    unfold write_whole_file
    rw [hfree_eq, if_neg hlen0]
    dsimp only
    cases halloc : alloc_loop st.L (dataStart st.L)
        (fun i => if i ∈ bs then FAT_FREE else v i)
        (((data.length + 127) % U32M) / 128) FAT_EOF FAT_EOF with
    | ok vf hd =>
      exfalso
      have := alloc_ok_le st.L (dataStart st.L) hstart _ _ FAT_EOF FAT_EOF vf hd halloc
      omega
    | fail vf => rfl
  constructor
  · unfold cmd_write
    rw [if_neg hfmt2, hens]
    dsimp only
    rw [hfind]
    dsimp only
    rw [hwrite]
  · intro i
    unfold cmd_write
    rw [if_neg hfmt2, hens]
    dsimp only
    rw [hfind]
    dsimp only
    rw [hwrite]

set_option maxRecDepth 16384 in
theorem claim_C3_witness :
    (dir_find_by_name g66 stB66.L stB66.img [97] =
      some (some (0, dirent_unpack (slotBytes stB66.L stB66.img 0)))) ∧
    (dirent_unpack (slotBytes stB66.L stB66.img 0)).used ≠ 0 ∧
    chainOk stB66.L fatB66 (dirent_unpack (slotBytes stB66.L stB66.img 0)).first [35] ∧
    countFree stB66.L (fun i => if i ∈ [35] then FAT_FREE else fatB66 i)
      (dataStart stB66.L) < (((List.replicate 200 7 : List Nat).length + 127) % U32M) / 128 ∧
    ((cmd_write g66 stB66 [97] (List.replicate 200 7)).2 = [50, 10] ∧
      (∀ i, (cmd_write g66 stB66 [97] (List.replicate 200 7)).1.img i = stB66.img i)) :=
  ⟨by decide, by decide, by decide, by decide,
    claim_C3_nospace_disk_unchanged g66 stB66 [97] fatB66 0
      (dirent_unpack (slotBytes stB66.L stB66.img 0)) [35] (List.replicate 200 7)
      rfl rfl (by decide) (by decide) (by decide) (by decide) (by decide)
      (by decide) (by decide)⟩

end FsSrv

namespace FsSrv

open DiskSrv

/-- Specification helper: head block of a chain list, EOF for the empty
chain. -/
def chainFirst : List Nat → Nat
  | [] => FAT_EOF
  | c :: _ => c

theorem find_free_from_none (L : Layout) (v : Nat → Nat) :
    ∀ (fuel i : Nat), find_free_from L v i fuel = none →
      ∀ j, i ≤ j → j < L.total_blocks → j < i + fuel → v j ≠ FAT_FREE := by
  intro fuel
  induction fuel with
  | zero =>
    intro i _ j h1 _ h3
    omega
  | succ f ih =>
    intro i h j h1 h2 h3
    rw [find_free_from] at h
    by_cases hi : i < L.total_blocks
    · rw [if_pos hi] at h
      by_cases hv : v i = FAT_FREE
      · rw [if_pos hv] at h; cases h
      · rw [if_neg hv] at h
        by_cases hj : j = i
        · subst hj; exact hv
        · exact ih (i + 1) h j (by omega) h2 (by omega)
    · omega

theorem find_free_block_none (L : Layout) (v : Nat → Nat) (start : Nat)
    (h : find_free_block L v start = none) : countFree L v start = 0 := by
  unfold countFree
  rw [List.length_eq_zero, List.filter_eq_nil_iff]
  intro x hx
  have hxN := List.mem_range.1 hx
  simp only [Bool.and_eq_true, decide_eq_true_eq, not_and]
  intro hsx
  exact find_free_from_none L v _ start h x hsx hxN (by omega)

theorem filter_length_le_add (l : List Nat) (hnd : l.Nodup) (p q : Nat → Bool)
    (b : Nat) (himp : ∀ x ∈ l, x ≠ b → p x = true → q x = true) :
    (l.filter p).length ≤ (l.filter q).length + 1 := by
  induction l with
  | nil => simp
  | cons a rest ih =>
    obtain ⟨hnda, hndr⟩ := List.nodup_cons.1 hnd
    have ihr := ih hndr fun x hx => himp x (List.mem_cons_of_mem _ hx)
    by_cases hab : a = b
    · subst hab
      have hmono : (rest.filter p).length ≤ (rest.filter q).length :=
        filter_length_mono rest q p fun x hx hpx =>
          himp x (List.mem_cons_of_mem _ hx) (fun he => hnda (he ▸ hx)) hpx
      by_cases hpa : p a = true
      · rw [List.filter_cons_of_pos hpa]
        simp only [List.length_cons]
        have : (rest.filter q).length ≤ (List.filter q (a :: rest)).length := by
          by_cases hqa : q a = true
          · rw [List.filter_cons_of_pos hqa]; simp
          · rw [List.filter_cons_of_neg hqa]
        omega
      · rw [List.filter_cons_of_neg hpa]
        have : (rest.filter q).length ≤ (List.filter q (a :: rest)).length := by
          by_cases hqa : q a = true
          · rw [List.filter_cons_of_pos hqa]; simp
          · rw [List.filter_cons_of_neg hqa]
        omega
    · by_cases hpa : p a = true
      · have hqa := himp a (List.mem_cons_self a rest) hab hpa
        rw [List.filter_cons_of_pos hpa, List.filter_cons_of_pos hqa]
        simp only [List.length_cons]
        omega
      · rw [List.filter_cons_of_neg hpa]
        have : (rest.filter q).length ≤ (List.filter q (a :: rest)).length := by
          by_cases hqa : q a = true
          · rw [List.filter_cons_of_pos hqa]; simp
          · rw [List.filter_cons_of_neg hqa]
        omega

/-- Helper: with prev pointing at a freshly allocated block (value EOF), an
allocation of `k` more blocks succeeds when at least `k` FREE blocks remain,
links prev to the first new block, and builds a duplicate-free chain in the
data area. -/
theorem alloc_loop_chain (L : Layout) (start : Nat) (hstart : 1 ≤ start)
    (hNEOF : L.total_blocks ≤ FAT_EOF) :
    ∀ (k : Nat) (v : Nat → Nat) (head prev : Nat),
      k ≤ countFree L v start → prev ≠ FAT_EOF → v prev = FAT_EOF →
      ∃ (cs : List Nat) (v2 : Nat → Nat),
        alloc_loop L start v k head prev = .ok v2 head ∧
        cs.length = k ∧ cs.Nodup ∧ prev ∉ cs ∧
        (∀ b ∈ cs, start ≤ b ∧ b < L.total_blocks ∧ v b = FAT_FREE) ∧
        (∀ j, j ≠ prev → j ∉ cs → v2 j = v j) ∧
        v2 prev = chainFirst cs ∧
        isChain v2 (chainFirst cs) cs = true := by
  intro k
  induction k with
  | zero =>
    intro v head prev _ _ hvp
    refine ⟨[], v, rfl, rfl, List.nodup_nil, List.not_mem_nil _, by simp,
      fun j _ _ => rfl, ?_, by simp [isChain, chainFirst]⟩
    simpa [chainFirst] using hvp
  | succ k ih =>
    intro v head prev hcnt hpe hvp
    cases hfb : find_free_block L v start with
    | none =>
      exfalso
      have := find_free_block_none L v start hfb
      omega
    | some b =>
      obtain ⟨hsb, hbN, hvb⟩ := find_free_block_some L v start b hfb
      have hbEOF : b ≠ FAT_EOF := Nat.ne_of_lt (lt_of_lt_of_le hbN hNEOF)
      have hbprev : b ≠ prev := fun h => by
        rw [h, hvp] at hvb
        exact (by decide : FAT_EOF ≠ FAT_FREE) hvb
      have hvnb : upd (upd v b FAT_EOF) prev b b = FAT_EOF := by
        rw [upd_other _ _ _ _ hbprev, upd_self]
      have hvnp : upd (upd v b FAT_EOF) prev b prev = b := upd_self _ _ _
      have hcnt2 : k ≤ countFree L (upd (upd v b FAT_EOF) prev b) start := by
        have hle : countFree L v start ≤
            countFree L (upd (upd v b FAT_EOF) prev b) start + 1 := by
          unfold countFree
          apply filter_length_le_add _ (List.nodup_range _) _ _ b
          intro x hx hxb hpx
          simp only [Bool.and_eq_true, decide_eq_true_eq] at hpx ⊢
          refine ⟨hpx.1, ?_⟩
          by_cases hxp : x = prev
          · exfalso
            rw [hxp, hvp] at hpx
            exact (by decide : FAT_EOF ≠ FAT_FREE) hpx.2
          · rw [upd_other _ _ _ _ hxp, upd_other _ _ _ _ hxb]
            exact hpx.2
        omega
      obtain ⟨cs', v2, hrec, hlen, hnd, hbnotin, hprops, hagree, hv2b, hchain⟩ :=
        ih (upd (upd v b FAT_EOF) prev b) head b hcnt2 hbEOF hvnb
      have hprevcs' : prev ∉ cs' := fun h => by
        have h3 := (hprops prev h).2.2
        rw [hvnp] at h3
        simp only [FAT_FREE] at h3
        omega
      refine ⟨b :: cs', v2, ?_, by simp [hlen], ?_, ?_, ?_, ?_, ?_, ?_⟩
      · rw [alloc_loop, hfb]
        dsimp only
        rw [if_pos hpe, if_pos hpe]
        exact hrec
      · rw [List.nodup_cons]
        refine ⟨fun hmem => ?_, hnd⟩
        have := (hprops b hmem).2.2
        rw [hvnb] at this
        exact (by decide : FAT_EOF ≠ FAT_FREE) this
      · intro hmem
        rcases List.mem_cons.1 hmem with h | h
        · exact hbprev h.symm
        · exact hprevcs' h
      · intro x hx
        rcases List.mem_cons.1 hx with rfl | h
        · exact ⟨hsb, hbN, hvb⟩
        · obtain ⟨h1, h2, h3⟩ := hprops x h
          have hxb : x ≠ b := fun hh => by
            rw [hh, hvnb] at h3
            exact (by decide : FAT_EOF ≠ FAT_FREE) h3
          have hxp : x ≠ prev := fun hh => by
            rw [hh, hvnp] at h3
            simp only [FAT_FREE] at h3
            omega
          rw [upd_other _ _ _ _ hxp, upd_other _ _ _ _ hxb] at h3
          exact ⟨h1, h2, h3⟩
      · intro j hjp hjcs
        have hjb : j ≠ b := fun h => hjcs (h ▸ List.mem_cons_self b cs')
        have hjcs' : j ∉ cs' := fun h => hjcs (List.mem_cons_of_mem _ h)
        rw [hagree j hjb hjcs', upd_other _ _ _ _ hjp, upd_other _ _ _ _ hjb]
      · rw [hagree prev (fun h => hbprev h.symm) hprevcs', hvnp]
        rfl
      · show isChain v2 (chainFirst (b :: cs')) (b :: cs') = true
        have hcf : chainFirst (b :: cs') = b := rfl
        rw [hcf]
        simp only [isChain, Bool.and_eq_true, decide_eq_true_eq]
        exact ⟨trivial, by rw [hv2b]; exact hchain⟩

/-- Helper: a top-level allocation (head and prev both EOF) of `k ≥ 1`
blocks succeeds when `k` FREE blocks exist and returns a duplicate-free
EOF-terminated chain whose links live only on the chain's own blocks. -/
theorem alloc_loop_top (L : Layout) (start : Nat) (hstart : 1 ≤ start)
    (hNEOF : L.total_blocks ≤ FAT_EOF) (k : Nat) (v : Nat → Nat)
    (hk : 1 ≤ k) (hcnt : k ≤ countFree L v start) :
    ∃ (cs : List Nat) (v2 : Nat → Nat),
      alloc_loop L start v k FAT_EOF FAT_EOF = .ok v2 (chainFirst cs) ∧
      cs ≠ [] ∧ cs.length = k ∧ cs.Nodup ∧
      (∀ b ∈ cs, start ≤ b ∧ b < L.total_blocks ∧ v b = FAT_FREE) ∧
      (∀ j, j ∉ cs → v2 j = v j) ∧
      isChain v2 (chainFirst cs) cs = true := by
  obtain ⟨k0, rfl⟩ : ∃ k0, k = k0 + 1 := ⟨k - 1, by omega⟩
  cases hfb : find_free_block L v start with
  | none =>
    exfalso
    have := find_free_block_none L v start hfb
    omega
  | some b =>
    obtain ⟨hsb, hbN, hvb⟩ := find_free_block_some L v start b hfb
    have hbEOF : b ≠ FAT_EOF := Nat.ne_of_lt (lt_of_lt_of_le hbN hNEOF)
    have hvnb : upd v b FAT_EOF b = FAT_EOF := upd_self _ _ _
    have hcnt2 : k0 ≤ countFree L (upd v b FAT_EOF) start := by
      have hle : countFree L v start ≤ countFree L (upd v b FAT_EOF) start + 1 := by
        unfold countFree
        apply filter_length_le_add _ (List.nodup_range _) _ _ b
        intro x hx hxb hpx
        simp only [Bool.and_eq_true, decide_eq_true_eq] at hpx ⊢
        rw [upd_other _ _ _ _ hxb]
        exact hpx
      omega
    obtain ⟨cs', v2, hrec, hlen, hnd, hbnotin, hprops, hagree, hv2b, hchain⟩ :=
      alloc_loop_chain L start hstart hNEOF k0 (upd v b FAT_EOF) b b
        hcnt2 hbEOF hvnb
    refine ⟨b :: cs', v2, ?_, by simp, by simp [hlen], ?_, ?_, ?_, ?_⟩
    · rw [alloc_loop, hfb]
      dsimp only
      rw [if_neg (by simp), if_neg (by simp)]
      exact hrec
    · rw [List.nodup_cons]
      refine ⟨fun hmem => ?_, hnd⟩
      have := (hprops b hmem).2.2
      rw [hvnb] at this
      exact (by decide : FAT_EOF ≠ FAT_FREE) this
    · intro x hx
      rcases List.mem_cons.1 hx with rfl | h
      · exact ⟨hsb, hbN, hvb⟩
      · obtain ⟨h1, h2, h3⟩ := hprops x h
        have hxb : x ≠ b := fun hh => by
          rw [hh, hvnb] at h3
          exact (by decide : FAT_EOF ≠ FAT_FREE) h3
        rw [upd_other _ _ _ _ hxb] at h3
        exact ⟨h1, h2, h3⟩
    · intro j hjcs
      have hjb : j ≠ b := fun h => hjcs (h ▸ List.mem_cons_self b cs')
      have hjcs' : j ∉ cs' := fun h => hjcs (List.mem_cons_of_mem _ h)
      rw [hagree j hjb hjcs', upd_other _ _ _ _ hjb]
    · show isChain v2 (chainFirst (b :: cs')) (b :: cs') = true
      have hcf : chainFirst (b :: cs') = b := rfl
      rw [hcf]
      simp only [isChain, Bool.and_eq_true, decide_eq_true_eq]
      exact ⟨trivial, by rw [hv2b]; exact hchain⟩

end FsSrv

namespace FsSrv

open DiskSrv

/-- Specification helper: the 128-byte sector contents stored for the chunk
of the payload starting at `pos` — the bytes from `pos`, zero-padded. -/
def chunkAt (d : List Nat) (pos : Nat) : List Nat :=
  (d.drop pos).take (min (d.length - pos) 128) ++
    List.replicate (128 - min (d.length - pos) 128) 0

theorem chunkAt_length (d : List Nat) (pos : Nat) : (chunkAt d pos).length = 128 := by
  unfold chunkAt
  simp only [List.length_append, List.length_take, List.length_replicate,
    List.length_drop]
  omega

theorem chunkAt_take (d : List Nat) (pos : Nat) :
    (chunkAt d pos).take (min (d.length - pos) 128) =
      (d.drop pos).take (min (d.length - pos) 128) := by
  unfold chunkAt
  apply List.take_left'
  simp only [List.length_take, List.length_drop]
  omega

/-- Helper: over a duplicate-free chain covering exactly the remaining
payload, the data-writing loop succeeds and stores chunk `n` of the payload
on the `n`-th chain block, leaving every other sector unchanged. -/
theorem write_loop_spec (g : Geom) (hS : 1 ≤ g.S) (v2 : Nat → Nat) (d : List Nat) :
    ∀ (cs : List Nat) (c0 : Nat) (img : Img) (pos fuel : Nat),
      isChain v2 c0 cs = true → cs ≠ [] → cs.Nodup →
      (∀ b ∈ cs, b < g.C * g.S) → (∀ b ∈ cs, b ≠ FAT_EOF) →
      pos < d.length →
      d.length - pos ≤ 128 * cs.length →
      128 * (cs.length - 1) < d.length - pos →
      cs.length + 1 ≤ fuel →
      ∃ img2, write_loop g v2 d fuel img c0 (d.length - pos) pos = some img2 ∧
        (∀ j, j ∉ cs → img2 j = img j) ∧
        (∀ n, ∀ hn : n < cs.length,
          img2 (cs.get ⟨n, hn⟩) = chunkAt d (pos + 128 * n)) := by
  intro cs
  induction cs with
  | nil => intro c0 img pos fuel _ hne; exact absurd rfl hne
  | cons b rest ih =>
    intro c0 img pos fuel hch _ hnd hvalid hEOFs hpos hcover hlow hfuel
    obtain ⟨hc0, hchrest⟩ : c0 = b ∧ isChain v2 (v2 b) rest = true := by
      simpa [isChain] using hch
    rw [hc0]
    obtain ⟨f, rfl⟩ : ∃ f, fuel = f + 1 := ⟨fuel - 1, by omega⟩
    have hbne : b ≠ FAT_EOF := hEOFs b (List.mem_cons_self b rest)
    have hbval : b < g.C * g.S := hvalid b (List.mem_cons_self b rest)
    have hbnotin : b ∉ rest := (List.nodup_cons.1 hnd).1
    simp only [write_loop, if_neg hbne]
    rw [disk_write_idx_eq g hS, if_pos hbval]
    dsimp only
    have htake : List.take 128
        ((d.drop pos).take (min (d.length - pos) 128) ++
          List.replicate (128 - min (d.length - pos) 128) 0) =
        chunkAt d pos := by
      rw [show ((d.drop pos).take (min (d.length - pos) 128) ++
          List.replicate (128 - min (d.length - pos) 128) 0) = chunkAt d pos from rfl]
      apply List.take_of_length_le
      rw [chunkAt_length]
    rw [htake]
    cases rest with
    | nil =>
      have htk : min (d.length - pos) 128 = d.length - pos := by
        simp only [List.length_cons, List.length_nil] at hcover
        omega
      have hcur : (if v2 b = FAT_EOF ∨ pos + min (d.length - pos) 128 ≥ d.length
          then FAT_EOF else v2 b) = FAT_EOF := by
        rw [htk]
        rw [if_pos (Or.inr (by omega))]
      rw [hcur]
      have hf1 : 1 ≤ f := by simp at hfuel; omega
      obtain ⟨f2, rfl⟩ : ∃ f2, f = f2 + 1 := ⟨f - 1, by omega⟩
      refine ⟨upd img b (chunkAt d pos), ?_, ?_, ?_⟩
      · simp [write_loop]
      · intro j hj
        exact upd_other _ _ _ _ (fun h => hj (h ▸ List.mem_cons_self b []))
      · intro n hn
        have hn0 : n = 0 := by simpa using hn
        subst hn0
        have hget : ((b :: ([] : List Nat)).get ⟨0, hn⟩) = b := rfl
        rw [hget, upd_self, show pos + 128 * 0 = pos from by omega]
    | cons r rs =>
      have hlen2 : 2 ≤ (b :: r :: rs : List Nat).length := by simp
      have htk : min (d.length - pos) 128 = 128 := by
        simp only [List.length_cons] at hlow
        omega
      have hvbr : v2 b = r := by
        obtain ⟨h1, -⟩ : v2 b = r ∧ isChain v2 (v2 r) rs = true := by
          simpa [isChain] using hchrest
        exact h1
      have hrne : r ≠ FAT_EOF :=
        hEOFs r (List.mem_cons_of_mem _ (List.mem_cons_self r rs))
      have hcur : (if v2 b = FAT_EOF ∨ pos + min (d.length - pos) 128 ≥ d.length
          then FAT_EOF else v2 b) = r := by
        rw [htk, hvbr]
        rw [if_neg]
        push_neg
        refine ⟨hrne, ?_⟩
        simp only [List.length_cons] at hlow
        omega
      rw [hcur, htk]
      have harg1 : d.length - pos - 128 = d.length - (pos + 128) := by omega
      have harg2 : pos + 128 < d.length := by
        simp only [List.length_cons] at hlow
        omega
      have hchr2 : isChain v2 r (r :: rs) = true := by
        rw [hvbr] at hchrest
        exact hchrest
      obtain ⟨img2, hrun, hpres, hblocks⟩ := ih r (upd img b (chunkAt d pos))
        (pos + 128) f
        hchr2
        (by simp)
        (List.nodup_cons.1 hnd).2
        (fun x hx => hvalid x (List.mem_cons_of_mem _ hx))
        (fun x hx => hEOFs x (List.mem_cons_of_mem _ hx))
        harg2
        (by simp only [List.length_cons] at hcover ⊢; omega)
        (by simp only [List.length_cons] at hlow ⊢; omega)
        (by simp only [List.length_cons] at hfuel ⊢; omega)
      rw [harg1]
      refine ⟨img2, hrun, ?_, ?_⟩
      · intro j hj
        rw [hpres j (fun h => hj (List.mem_cons_of_mem _ h))]
        exact upd_other _ _ _ _ (fun h => hj (h ▸ List.mem_cons_self _ _))
      · intro n hn
        cases n with
        | zero =>
          have hget : ((b :: r :: rs : List Nat).get ⟨0, hn⟩) = b := rfl
          rw [hget, hpres b hbnotin, upd_self, show pos + 128 * 0 = pos from by omega]
        | succ n2 =>
          have hn2 : n2 < (r :: rs : List Nat).length := by
            simpa using hn
          have hget : ((b :: r :: rs : List Nat).get ⟨n2 + 1, hn⟩) =
              ((r :: rs : List Nat).get ⟨n2, hn2⟩) := rfl
          rw [hget, hblocks n2 hn2,
            show pos + 128 + 128 * n2 = pos + 128 * (n2 + 1) from by omega]

/-- Helper: walking the same chain over an image that holds the written
chunks reads the payload back intact, with no bytes left unread. -/
theorem read_loop_spec (g : Geom) (hS : 1 ≤ g.S) (v2 : Nat → Nat) (d : List Nat)
    (imgR : Img) :
    ∀ (cs : List Nat) (c0 : Nat) (pos fuel : Nat) (acc : List Nat),
      isChain v2 c0 cs = true → cs ≠ [] →
      (∀ b ∈ cs, b < g.C * g.S) → (∀ b ∈ cs, b ≠ FAT_EOF) →
      pos < d.length →
      d.length - pos ≤ 128 * cs.length →
      128 * (cs.length - 1) < d.length - pos →
      cs.length + 1 ≤ fuel →
      (∀ n, ∀ hn : n < cs.length,
        imgR (cs.get ⟨n, hn⟩) = chunkAt d (pos + 128 * n)) →
      read_loop g v2 fuel imgR c0 (d.length - pos) acc = some (acc ++ d.drop pos, 0) := by
  intro cs
  induction cs with
  | nil => intro c0 pos fuel acc _ hne; exact absurd rfl hne
  | cons b rest ih =>
    intro c0 pos fuel acc hch _ hvalid hEOFs hpos hcover hlow hfuel himg
    obtain ⟨hc0, hchrest⟩ : c0 = b ∧ isChain v2 (v2 b) rest = true := by
      simpa [isChain] using hch
    rw [hc0]
    obtain ⟨f, rfl⟩ : ∃ f, fuel = f + 1 := ⟨fuel - 1, by omega⟩
    have hbne : b ≠ FAT_EOF := hEOFs b (List.mem_cons_self b rest)
    have hbval : b < g.C * g.S := hvalid b (List.mem_cons_self b rest)
    have himgb : imgR b = chunkAt d pos := by
      have := himg 0 (by simp)
      simpa using this
    simp only [read_loop]
    rw [if_pos ⟨by omega, hbne⟩]
    rw [disk_read_idx_eq g hS, if_pos hbval]
    dsimp only
    rw [himgb]
    have htake : (chunkAt d pos).take (min (d.length - pos) 128) =
        (d.drop pos).take (min (d.length - pos) 128) := chunkAt_take d pos
    rw [htake]
    cases rest with
    | nil =>
      have htk : min (d.length - pos) 128 = d.length - pos := by
        simp only [List.length_cons, List.length_nil] at hcover
        omega
      have hleft0 : d.length - pos - min (d.length - pos) 128 = 0 := by omega
      rw [hleft0]
      have hf1 : 1 ≤ f := by simp at hfuel; omega
      obtain ⟨f2, rfl⟩ : ∃ f2, f = f2 + 1 := ⟨f - 1, by omega⟩
      simp only [read_loop]
      rw [if_neg (by simp)]
      have hfull : (d.drop pos).take (min (d.length - pos) 128) = d.drop pos := by
        apply List.take_of_length_le
        simp only [List.length_drop]
        omega
      rw [hfull]
    | cons r rs =>
      have htk : min (d.length - pos) 128 = 128 := by
        simp only [List.length_cons] at hlow
        omega
      have hvbr : v2 b = r := by
        obtain ⟨h1, -⟩ : v2 b = r ∧ isChain v2 (v2 r) rs = true := by
          simpa [isChain] using hchrest
        exact h1
      rw [htk, hvbr]
      have harg1 : d.length - pos - 128 = d.length - (pos + 128) := by omega
      have harg2 : pos + 128 < d.length := by
        simp only [List.length_cons] at hlow
        omega
      rw [harg1]
      have hchr2 : isChain v2 r (r :: rs) = true := by
        rw [hvbr] at hchrest
        exact hchrest
      have hrec := ih r (pos + 128) f (acc ++ (d.drop pos).take 128)
        hchr2
        (by simp)
        (fun x hx => hvalid x (List.mem_cons_of_mem _ hx))
        (fun x hx => hEOFs x (List.mem_cons_of_mem _ hx))
        harg2
        (by simp only [List.length_cons] at hcover ⊢; omega)
        (by simp only [List.length_cons] at hlow ⊢; omega)
        (by simp only [List.length_cons] at hfuel ⊢; omega)
        (by
          intro n hn
          have hn1 : n + 1 < (b :: r :: rs : List Nat).length := by simpa using hn
          have hget : ((b :: r :: rs : List Nat).get ⟨n + 1, hn1⟩) =
              ((r :: rs : List Nat).get ⟨n, hn⟩) := rfl
          have h2 := himg (n + 1) hn1
          rw [hget] at h2
          rw [h2, show pos + 128 * (n + 1) = pos + 128 + 128 * n from by omega])
      rw [hrec]
      have hdd : (d.drop pos).drop 128 = d.drop (pos + 128) := by
        rw [List.drop_drop]
      have hjoin : (acc ++ (d.drop pos).take 128) ++ d.drop (pos + 128) =
          acc ++ d.drop pos := by
        rw [List.append_assoc, ← hdd, List.take_append_drop]
      rw [hjoin]

end FsSrv

namespace FsSrv

open DiskSrv

/-- Helper: little-endian decode inverts little-endian encode modulo
2^32. -/
theorem leU32_u32le (x : Nat) : leU32 (u32le x) = x % U32M := by
  simp only [u32le, leU32, List.getD_cons_zero, List.getD_cons_succ, U32M]
  omega

/-- Helper: a directory slot of a full 128-byte sector holds 64 bytes. -/
theorem slotBytes_length (L : Layout) (img : Img) (i : Nat)
    (h : (img (L.dir_start + i / 2)).length = 128) :
    (slotBytes L img i).length = 64 := by
  have h2 : i % 2 < 2 := Nat.mod_lt _ (by omega)
  unfold slotBytes
  simp only [List.length_take, List.length_drop, h]
  omega

/-- Helper: a decomposition of `range n` around one element forces the
prefix to be the range of that element. -/
theorem range_eq_append (n : Nat) (pre : List Nat) (i : Nat) (post : List Nat)
    (h : List.range n = pre ++ i :: post) : pre = List.range i ∧ i < n := by
  have hlen : n = pre.length + (post.length + 1) := by
    have := congrArg List.length h
    simpa [List.length_range] using this
  have hplt : pre.length < n := by omega
  have hplt2 : pre.length < (List.range n).length := by
    simpa [List.length_range] using hplt
  have hi : i = pre.length := by
    have h1 : (List.range n).getD pre.length 0 = pre.length := by
      rw [List.getD_eq_getElem _ _ hplt2]
      simp
    have h2 : (pre ++ i :: post).getD pre.length 0 = i := by
      rw [List.getD_append_right _ _ _ _ (Nat.le_refl _)]
      simp
    rw [h, h2] at h1
    exact h1
  constructor
  · have h2 : (List.range n).take pre.length = pre := by
      rw [h]
      exact List.take_left pre (i :: post)
    rw [List.take_range] at h2
    have hmin : min pre.length n = pre.length := by omega
    rw [hmin] at h2
    rw [hi]
    exact h2.symm
  · omega

/-- Helper: for a 32-byte name the packed entry is the name followed by the
little-endian length and first fields, the used byte, and zero padding. -/
theorem dirent_pack_eq (e : Dirent) (h : e.name.length = 32) :
    dirent_pack e = e.name ++ (u32le e.length ++ (u32le e.first ++
      ((e.used % 256) :: List.replicate 23 0))) := by
  unfold dirent_pack
  rw [h]
  simp only [Nat.min_self, Nat.sub_self, List.replicate_zero, List.append_nil]
  rw [List.take_of_length_le (Nat.le_of_eq h)]
  simp [List.append_assoc]

/-- Helper: unpacking a packed entry recovers the fields modulo the machine
widths, with the name byte 31 forced to zero. -/
theorem dirent_unpack_pack (e : Dirent) (h : e.name.length = 32) :
    dirent_unpack (dirent_pack e) =
      ⟨e.name.take 31 ++ [0], e.length % U32M, e.first % U32M, e.used % 256⟩ := by
  rw [dirent_pack_eq e h]
  unfold dirent_unpack
  have htake31 : (e.name ++ (u32le e.length ++ (u32le e.first ++
      ((e.used % 256) :: List.replicate 23 0)))).take 31 = e.name.take 31 :=
    List.take_append_of_le_length (by omega)
  have hlen4 : ((e.name ++ (u32le e.length ++ (u32le e.first ++
      ((e.used % 256) :: List.replicate 23 0)))).drop 32).take 4 = u32le e.length := by
    rw [List.drop_left' h, List.take_left' (by simp [u32le])]
  have hfst4 : ((e.name ++ (u32le e.length ++ (u32le e.first ++
      ((e.used % 256) :: List.replicate 23 0)))).drop 36).take 4 = u32le e.first := by
    rw [show (36 : Nat) = 32 + 4 from rfl, ← List.drop_drop, List.drop_left' h,
      List.drop_left' (by simp [u32le]), List.take_left' (by simp [u32le])]
  have hused : (e.name ++ (u32le e.length ++ (u32le e.first ++
      ((e.used % 256) :: List.replicate 23 0)))).getD 40 0 = e.used % 256 := by
    rw [List.getD_append_right _ _ _ _ (by omega), h]
    simp [u32le]
  rw [htake31, hlen4, hfst4, hused, leU32_u32le, leU32_u32le]

/-- Helper: the name field of an entry unpacked from a (at least 31-byte)
slot has exactly 32 bytes. -/
theorem unpack_name_length (B : List Nat) (hB : 31 ≤ B.length) :
    (dirent_unpack B).name.length = 32 := by
  show (B.take 31 ++ [0]).length = 32
  simp only [List.length_append, List.length_take, List.length_cons, List.length_nil]
  omega

/-- Helper: re-packing an entry unpacked from a 64-byte slot (with fresh
length and first fields) and unpacking again gives back the same name, the
fresh fields modulo 2^32, and the used byte modulo 256. -/
theorem unpack_pack_slot (B : List Nat) (hB : B.length = 64) (len fst : Nat) :
    dirent_unpack (dirent_pack ⟨(dirent_unpack B).name, len, fst,
        (dirent_unpack B).used⟩) =
      ⟨(dirent_unpack B).name, len % U32M, fst % U32M,
        (dirent_unpack B).used % 256⟩ := by
  have hname : (dirent_unpack B).name = B.take 31 ++ [0] := rfl
  have hnl : (Dirent.mk (dirent_unpack B).name len fst
      (dirent_unpack B).used).name.length = 32 :=
    unpack_name_length B (by omega)
  rw [dirent_unpack_pack _ hnl]
  congr 1
  show (dirent_unpack B).name.take 31 ++ [0] = (dirent_unpack B).name
  rw [hname, List.take_left' (by simp [List.length_take]; omega)]

/-- Helper: when every byte of the containing sector is a real byte value,
the used field of the unpacked slot is below 256. -/
theorem slot_used_lt (L : Layout) (img : Img) (i : Nat)
    (h256 : ∀ x ∈ img (L.dir_start + i / 2), x < 256) :
    (dirent_unpack (slotBytes L img i)).used < 256 := by
  show (slotBytes L img i).getD 40 0 < 256
  by_cases hlt : 40 < (slotBytes L img i).length
  · rw [List.getD_eq_getElem _ _ hlt]
    apply h256
    have hmem : (slotBytes L img i)[40] ∈ slotBytes L img i := List.getElem_mem hlt
    unfold slotBytes at hmem
    exact List.mem_of_mem_drop (List.mem_of_mem_take hmem)
  · rw [List.getD_eq_default _ _ (by omega)]
    omega

end FsSrv

namespace FsSrv

open DiskSrv

/-- Helper: common tail of a successful `W` followed by `R` of the same
name — the FAT flush and directory-slot rewrite succeed, the reply is 0, and
the subsequent scan finds the rewritten slot and replays the payload. -/
theorem cmd_write_read_tail (g : Geom) (st : FsState) (nm d : List Nat)
    (v v2 : Nat → Nat) (s : Nat) (e : Dirent) (img2 : Img) (f0 : Nat)
    (racc : List Nat) (rleft : Nat)
    (hS : 1 ≤ g.S)
    (hfmt : st.formatted = true)
    (hfat : st.fat = some v)
    (hdirv : ∀ i, i < st.L.dir_entries → st.L.dir_start + i / 2 < g.C * g.S)
    (hfatv : ∀ t, t < st.L.fat_sectors → st.L.fat_start + t < g.C * g.S)
    (hfd : ∀ t, t < st.L.fat_sectors → ∀ i, i < st.L.dir_entries →
      st.L.fat_start + t ≠ st.L.dir_start + i / 2)
    (hfdata : ∀ t, t < st.L.fat_sectors → st.L.fat_start + t < dataStart st.L)
    (hdirdata : ∀ i, i < st.L.dir_entries → st.L.dir_start + i / 2 < dataStart st.L)
    (hbl : (st.img (st.L.dir_start + s / 2)).length = 128)
    (hfind : dir_find_by_name g st.L st.img nm = some (some (s, e)))
    (hsd : s < st.L.dir_entries)
    (hprelt : ∀ j, j < s → ¬ slotMatches st.L st.img nm j)
    (he : e = dirent_unpack (slotBytes st.L st.img s))
    (hused : e.used ≠ 0)
    (husedlt : e.used < 256)
    (hnm : strncmp_eq e.name nm 32 = true)
    (hlenU : d.length % U32M = d.length)
    (hf0 : f0 % U32M = f0)
    (hw : write_whole_file g st.L v st.img e d =
      .ok v2 img2 ⟨e.name, d.length, f0, e.used⟩)
    (himg2dir : ∀ j, j < st.L.dir_entries →
      img2 (st.L.dir_start + j / 2) = st.img (st.L.dir_start + j / 2))
    (hrd : ∀ imgX : Img, (∀ b, dataStart st.L ≤ b → imgX b = img2 b) →
      read_loop g v2 (d.length + 1) imgX f0 d.length [] = some (racc, rleft)) :
    (cmd_write g st nm d).2 = [48, 10] ∧
    (cmd_read g (cmd_write g st nm d).1 nm).2 =
      [48, 32] ++ decBytes d.length ++ [32] ++
        (racc ++ List.replicate rleft 0) ++ [10] := by
  have hfmt2 : ¬ (st.formatted = false) := by rw [hfmt]; simp
  have hens : fat_ensure g st = some v := by unfold fat_ensure; rw [hfat]
  have hfok0 := fat_flush_ok g st.L img2 v2 hS hfatv
  cases hff : fat_flush g st.L img2 v2 with
  | mk img3 okf =>
    rw [hff] at hfok0
    have hokf : okf = true := hfok0
    subst hokf
    have himg3dir : ∀ j, j < st.L.dir_entries →
        img3 (st.L.dir_start + j / 2) = st.img (st.L.dir_start + j / 2) := by
      intro j hj
      have hp := fat_flush_preserve g st.L img2 v2 (st.L.dir_start + j / 2) hS
        (fun t ht => hfd t ht j hj)
      rw [hff] at hp
      exact hp.trans (himg2dir j hj)
    have hlen3 : (img3 (st.L.dir_start + s / 2)).length = 128 := by
      rw [himg3dir s hsd]
      exact hbl
    have hdw := dir_write_entry_eq g st.L img3 s ⟨e.name, d.length, f0, e.used⟩ hS
      (hdirv s hsd) hlen3
    have hwrite : cmd_write g st nm d =
        (⟨upd img3 (st.L.dir_start + s / 2)
            ((img3 (st.L.dir_start + s / 2)).take (s % 2 * 64) ++
              dirent_pack ⟨e.name, d.length, f0, e.used⟩ ++
              (img3 (st.L.dir_start + s / 2)).drop (s % 2 * 64 + 64)),
          st.L, some v2, st.formatted⟩, [48, 10]) := by
      unfold cmd_write
      rw [if_neg hfmt2, hens]
      dsimp only
      rw [hfind]
      dsimp only
      rw [hw]
      dsimp only
      rw [hff]
      dsimp only
      rw [hdw]
    have hslot_self : slotBytes st.L (cmd_write g st nm d).1.img s =
        dirent_pack ⟨e.name, d.length, f0, e.used⟩ := by
      rw [hwrite]
      exact slotBytes_write_self st.L img3 s _ hlen3
    have hslot_other : ∀ j, j < st.L.dir_entries → j ≠ s →
        slotBytes st.L (cmd_write g st nm d).1.img j = slotBytes st.L st.img j := by
      intro j hj hjs
      rw [hwrite]
      by_cases hs2 : j / 2 = s / 2
      · have hm : j % 2 ≠ s % 2 := by omega
        rw [slotBytes_write_neighbor st.L img3 s j _ hlen3 hs2 hm]
        unfold slotBytes
        rw [hs2, himg3dir s hsd, ← hs2]
      · have hsec : st.L.dir_start + j / 2 ≠ st.L.dir_start + s / 2 := by omega
        rw [slotBytes_upd_other_sector st.L img3 _ _ j hsec]
        unfold slotBytes
        rw [himg3dir j hj]
    have hBlen : (slotBytes st.L st.img s).length = 64 := slotBytes_length _ _ _ hbl
    have hent2 : dirent_unpack (dirent_pack ⟨e.name, d.length, f0, e.used⟩) =
        ⟨e.name, d.length, f0, e.used⟩ := by
      have h1 := unpack_pack_slot (slotBytes st.L st.img s) hBlen d.length f0
      rw [← he] at h1
      rw [hlenU, hf0, Nat.mod_eq_of_lt husedlt] at h1
      exact h1
    have hm4 : slotMatches st.L (cmd_write g st nm d).1.img nm s := by
      unfold slotMatches
      rw [hslot_self, hent2]
      exact ⟨hused, hnm⟩
    have hL4 : (cmd_write g st nm d).1.L = st.L := by rw [hwrite]
    have hfmt4 : (cmd_write g st nm d).1.formatted = true := by
      rw [hwrite]
      exact hfmt
    have hfat4 : (cmd_write g st nm d).1.fat = some v2 := by rw [hwrite]
    rcases dir_find_in_cases g st.L (cmd_write g st nm d).1.img nm hS
        (List.range st.L.dir_entries)
        (fun i hi => hdirv i (List.mem_range.1 hi)) with
      ⟨-, hall⟩ | ⟨pre2, i2, post2, heq2, hpre2, hi2, hres2⟩
    · exact absurd hm4 (hall s (List.mem_range.2 hsd))
    · obtain ⟨hpre2', hi2d⟩ := range_eq_append _ _ _ _ heq2
      have hi2s : i2 = s := by
        rcases Nat.lt_trichotomy i2 s with hlt | heqv | hgt
        · exfalso
          have hms : slotMatches st.L st.img nm i2 := by
            unfold slotMatches at hi2 ⊢
            rw [← hslot_other i2 hi2d (by omega)]
            exact hi2
          exact hprelt i2 hlt hms
        · exact heqv
        · exfalso
          apply hpre2 s _ hm4
          rw [hpre2']
          exact List.mem_range.2 hgt
      subst hi2s
      have hens4 : fat_ensure g (cmd_write g st nm d).1 = some v2 := by
        unfold fat_ensure
        rw [hfat4]
      have hfind4 : dir_find_by_name g (cmd_write g st nm d).1.L
          (cmd_write g st nm d).1.img nm =
          some (some (i2, (⟨e.name, d.length, f0, e.used⟩ : Dirent))) := by
        unfold dir_find_by_name
        rw [hL4, hres2, hslot_self, hent2]
      have hpres4 : ∀ b, dataStart st.L ≤ b →
          (cmd_write g st nm d).1.img b = img2 b := by
        intro b hb
        rw [hwrite]
        dsimp only
        rw [upd_other _ _ _ _ (by have := hdirdata i2 hsd; omega)]
        have hp := fat_flush_preserve g st.L img2 v2 b hS
          (fun t ht => by have := hfdata t ht; omega)
        rw [hff] at hp
        exact hp
      have hread : read_whole_file g v2 (cmd_write g st nm d).1.img
          ⟨e.name, d.length, f0, e.used⟩ = some (racc, rleft) := by
        unfold read_whole_file
        dsimp only
        exact hrd _ hpres4
      constructor
      · rw [hwrite]
      · unfold cmd_read
        rw [if_neg (by rw [hfmt4]; simp), hens4]
        dsimp only
        rw [hfind4]
        dsimp only
        rw [hread]

end FsSrv

namespace FsSrv

open DiskSrv

/-- Claim C1 (amended): on a formatted filesystem whose layout lies inside
the disk, writing an existing file (whose current chain is well formed) with
a payload that fits in the remaining FREE blocks — and whose length stays
below the `uint32_t` wrap of the block count, `len + 127 < 2^32` — replies
0, and an immediately following `R` of the same name replies
`0 <len> <data>`.  Without the wrap bound the round trip fails (see the
counterexample): the claim's free-space premise alone admits payloads whose
block count wraps to zero. -/
theorem claim_C1_roundtrip (g : Geom) (st : FsState) (nm d : List Nat)
    (v : Nat → Nat) (s : Nat) (e : Dirent) (bs : List Nat)
    (hS : 1 ≤ g.S)
    (hfmt : st.formatted = true)
    (hfat : st.fat = some v)
    (hdirv : ∀ i, i < st.L.dir_entries → st.L.dir_start + i / 2 < g.C * g.S)
    (hfatv : ∀ t, t < st.L.fat_sectors → st.L.fat_start + t < g.C * g.S)
    (hfd : ∀ t, t < st.L.fat_sectors → ∀ i, i < st.L.dir_entries →
      st.L.fat_start + t ≠ st.L.dir_start + i / 2)
    (hfdata : ∀ t, t < st.L.fat_sectors → st.L.fat_start + t < dataStart st.L)
    (hdirdata : ∀ i, i < st.L.dir_entries → st.L.dir_start + i / 2 < dataStart st.L)
    (hN : st.L.total_blocks ≤ g.C * g.S)
    (hNEOF : st.L.total_blocks ≤ FAT_EOF)
    (hbl : (st.img (st.L.dir_start + s / 2)).length = 128)
    (hbytes : ∀ x ∈ st.img (st.L.dir_start + s / 2), x < 256)
    (hfind : dir_find_by_name g st.L st.img nm = some (some (s, e)))
    (hch : chainOk st.L v e.first bs)
    (hlen32 : d.length + 127 < U32M)
    (hfree : d.length ≤ 128 * countFree st.L
      (fun b => if b ∈ bs then FAT_FREE else v b) (dataStart st.L)) :
    (cmd_write g st nm d).2 = [48, 10] ∧
    (cmd_read g (cmd_write g st nm d).1 nm).2 =
      [48, 32] ++ decBytes d.length ++ [32] ++ d ++ [10] := by
  obtain ⟨hchain, hnd, hbounds⟩ := hch
  have hbne : ∀ x ∈ bs, x ≠ FAT_EOF := fun x hx =>
    Nat.ne_of_lt (lt_of_lt_of_le (hbounds x hx).2 hNEOF)
  rcases dir_find_in_cases g st.L st.img nm hS (List.range st.L.dir_entries)
      (fun i hi => hdirv i (List.mem_range.1 hi)) with
    ⟨hres, -⟩ | ⟨pre, i, post, heq, hpre, hmi, hres⟩
  · exfalso
    unfold dir_find_by_name at hfind
    rw [hfind] at hres
    exact absurd hres (by simp)
  · unfold dir_find_by_name at hfind
    rw [hfind] at hres
    have hse : s = i ∧ e = dirent_unpack (slotBytes st.L st.img i) := by
      have h1 := Option.some.inj (Option.some.inj hres)
      exact ⟨congrArg Prod.fst h1, congrArg Prod.snd h1⟩
    obtain ⟨hsi, he⟩ := hse
    subst hsi
    obtain ⟨hpre', hsd⟩ := range_eq_append st.L.dir_entries pre s post heq
    have hprelt : ∀ j, j < s → ¬ slotMatches st.L st.img nm j := by
      intro j hj
      apply hpre
      rw [hpre']
      exact List.mem_range.2 hj
    unfold slotMatches at hmi
    rw [← he] at hmi
    obtain ⟨hused, hnm⟩ := hmi
    have husedlt : e.used < 256 := by
      rw [he]
      exact slot_used_lt st.L st.img s hbytes
    have hstart : 1 ≤ dataStart st.L := by
      have := hdirdata s hsd
      omega
    have hfind2 : dir_find_by_name g st.L st.img nm = some (some (s, e)) := by
      unfold dir_find_by_name
      exact hfind
    have hlenU : d.length % U32M = d.length := Nat.mod_eq_of_lt (by omega)
    have hfree_eq : (if e.used ≠ 0 ∧ e.first ≠ FAT_EOF then
        free_chain v (st.L.total_blocks + 1) e.first else v) =
        (fun b => if b ∈ bs then FAT_FREE else v b) := by
      by_cases hef : e.first = FAT_EOF
      · rw [if_neg (fun hc => hc.2 hef)]
        cases bs with
        | nil => funext b; simp
        | cons b rest =>
          exfalso
          obtain ⟨h1, -⟩ : e.first = b ∧ isChain v (v b) rest = true := by
            simpa [isChain] using hchain
          exact hbne b (List.mem_cons_self b rest) (by rw [← h1, hef])
      · rw [if_pos ⟨hused, hef⟩]
        exact free_chain_spec v e.first bs _ hchain hnd hbne
          (by
            have := nodup_bounded_length bs st.L.total_blocks hnd
              (fun x hx => (hbounds x hx).2)
            omega)
    by_cases hlen0 : d.length = 0
    · have hw : write_whole_file g st.L v st.img e d =
          .ok (fun b => if b ∈ bs then FAT_FREE else v b) st.img
            ⟨e.name, d.length, FAT_EOF, e.used⟩ := by
        unfold write_whole_file
        rw [hfree_eq, if_pos hlen0]
      have hrd : ∀ imgX : Img, (∀ b, dataStart st.L ≤ b → imgX b = st.img b) →
          read_loop g (fun b => if b ∈ bs then FAT_FREE else v b) (d.length + 1)
            imgX FAT_EOF d.length [] = some (d, 0) := by
        intro imgX _
        have hd : d = [] := List.length_eq_zero.1 hlen0
        subst hd
        rfl
      obtain ⟨hc1, hc2⟩ := cmd_write_read_tail g st nm d v
        (fun b => if b ∈ bs then FAT_FREE else v b) s e st.img FAT_EOF d 0
        hS hfmt hfat hdirv hfatv hfd hfdata hdirdata hbl hfind2 hsd hprelt he
        hused husedlt hnm hlenU (by decide) hw (fun j _ => rfl) hrd
      exact ⟨hc1, by simpa using hc2⟩
    · have hmod : (d.length + 127) % U32M = d.length + 127 :=
        Nat.mod_eq_of_lt hlen32
      have hcnt : (d.length + 127) / 128 ≤ countFree st.L
          (fun b => if b ∈ bs then FAT_FREE else v b) (dataStart st.L) := by
        omega
      obtain ⟨cs, v2, halloc, hcsne, hcslen, hcsnd, hcsprops, hagree, hchain2⟩ :=
        alloc_loop_top st.L (dataStart st.L) hstart hNEOF ((d.length + 127) / 128)
          (fun b => if b ∈ bs then FAT_FREE else v b) (by omega) hcnt
      have hcsb : ∀ b ∈ cs, b < g.C * g.S := fun b hb => by
        have := (hcsprops b hb).2.1
        omega
      have hcsEOF : ∀ b ∈ cs, b ≠ FAT_EOF := fun b hb =>
        Nat.ne_of_lt (lt_of_lt_of_le (hcsprops b hb).2.1 hNEOF)
      obtain ⟨img2, hwl, hwpres, hwdata⟩ :=
        write_loop_spec g hS v2 d cs (chainFirst cs) st.img 0 (d.length + 2)
          hchain2 hcsne hcsnd hcsb hcsEOF (by omega)
          (by rw [hcslen]; omega) (by rw [hcslen]; omega) (by rw [hcslen]; omega)
      have hwl2 : write_loop g v2 d (d.length + 2) st.img (chainFirst cs)
          d.length 0 = some img2 := by
        have h0 : d.length - 0 = d.length := by omega
        rw [← h0]
        exact hwl
      have hw : write_whole_file g st.L v st.img e d =
          .ok v2 img2 ⟨e.name, d.length, chainFirst cs, e.used⟩ := by
        unfold write_whole_file
        rw [hfree_eq, if_neg hlen0]
        dsimp only
        rw [hmod, halloc]
        dsimp only
        rw [hwl2]
      have himg2dir : ∀ j, j < st.L.dir_entries →
          img2 (st.L.dir_start + j / 2) = st.img (st.L.dir_start + j / 2) := by
        intro j hj
        apply hwpres
        intro hmem
        have h1 := (hcsprops _ hmem).1
        have h2 := hdirdata j hj
        omega
      have hf0 : chainFirst cs % U32M = chainFirst cs := by
        obtain ⟨c0, cs', rfl⟩ : ∃ c0 cs', cs = c0 :: cs' := by
          cases cs with
          | nil => exact absurd rfl hcsne
          | cons c0 cs' => exact ⟨c0, cs', rfl⟩
        have h1 := (hcsprops c0 (List.mem_cons_self c0 cs')).2.1
        have h2 : FAT_EOF < U32M := by decide
        have h3 : chainFirst (c0 :: cs') = c0 := rfl
        exact Nat.mod_eq_of_lt (by rw [h3]; omega)
      have hrd : ∀ imgX : Img, (∀ b, dataStart st.L ≤ b → imgX b = img2 b) →
          read_loop g v2 (d.length + 1) imgX (chainFirst cs) d.length [] =
            some (d, 0) := by
        intro imgX hpres
        have h1 := read_loop_spec g hS v2 d imgX cs (chainFirst cs) 0
          (d.length + 1) [] hchain2 hcsne hcsb hcsEOF (by omega)
          (by rw [hcslen]; omega) (by rw [hcslen]; omega) (by rw [hcslen]; omega)
          (by
            intro n hn
            rw [hpres _ (hcsprops _ (List.get_mem cs n hn)).1]
            exact hwdata n hn)
        have h0 : d.length - 0 = d.length := by omega
        rw [h0] at h1
        simpa using h1
      obtain ⟨hc1, hc2⟩ := cmd_write_read_tail g st nm d v v2 s e img2
        (chainFirst cs) d 0
        hS hfmt hfat hdirv hfatv hfd hfdata hdirdata hbl hfind2 hsd hprelt he
        hused husedlt hnm hlenU hf0 hw himg2dir hrd
      exact ⟨hc1, by simpa using hc2⟩

end FsSrv

namespace FsSrv

open DiskSrv

set_option maxRecDepth 16384 in
theorem claim_C1_witness :
    (dir_find_by_name g66 stA66.L stA66.img [97] =
      some (some (0, dirent_unpack (slotBytes stA66.L stA66.img 0)))) ∧
    chainOk stA66.L fatEmpty66
      (dirent_unpack (slotBytes stA66.L stA66.img 0)).first [] ∧
    ((cmd_write g66 stA66 [97] [5]).2 = [48, 10] ∧
      (cmd_read g66 (cmd_write g66 stA66 [97] [5]).1 [97]).2 =
        [48, 32] ++ decBytes ([5] : List Nat).length ++ [32] ++ [5] ++ [10]) :=
  ⟨by decide, by decide,
    claim_C1_roundtrip g66 stA66 [97] [5] fatEmpty66 0
      (dirent_unpack (slotBytes stA66.L stA66.img 0)) []
      (by decide) rfl rfl (by decide) (by decide) (by decide) (by decide)
      (by decide) (by decide) (by decide) (by decide) (by decide) (by decide)
      (by decide) (by decide) (by decide)⟩

end FsSrv

namespace FsSrv

open DiskSrv

/-- Claim C4 (amended): for a formatted filesystem with a loaded FAT cache
and a directory inside the disk, `C name` replies 1 exactly when the name is
valid (length in `[1, 31]`) and a used directory entry with that name
already exists; an invalid name (empty or 32 bytes and longer) is rejected
with reply 2, not 1; and creating a fresh valid NUL-free name into a free
readable slot replies 0, after which a second `C` of the same name
replies 1. -/
theorem claim_C4_create_exists_iff (g : Geom) (st : FsState) (nm : List Nat)
    (v : Nat → Nat) (hS : 1 ≤ g.S) (hfmt : st.formatted = true)
    (hfat : st.fat = some v)
    (hdir : ∀ i, i < st.L.dir_entries → st.L.dir_start + i / 2 < g.C * g.S) :
    ((cmd_create g st nm).2 = [49, 10] ↔
      (1 ≤ nm.length ∧ nm.length < 32 ∧
        ∃ i, i < st.L.dir_entries ∧ slotMatches st.L st.img nm i)) ∧
    (nm.length = 0 ∨ 32 ≤ nm.length → (cmd_create g st nm).2 = [50, 10]) ∧
    (∀ slot, 1 ≤ nm.length → nm.length < 32 → (∀ x ∈ nm, x ≠ 0) →
      dir_find_by_name g st.L st.img nm = some none →
      dir_find_free g st.L st.img = some (some slot) →
      (st.img (st.L.dir_start + slot / 2)).length = 128 →
      (cmd_create g st nm).2 = [48, 10] ∧
      (cmd_create g (cmd_create g st nm).1 nm).2 = [49, 10]) := by
  have hfmt2 : ¬ (st.formatted = false) := by rw [hfmt]; simp
  have hens : fat_ensure g st = some v := by unfold fat_ensure; rw [hfat]
  have hpart3 : ∀ slot, 1 ≤ nm.length → nm.length < 32 → (∀ x ∈ nm, x ≠ 0) →
      dir_find_by_name g st.L st.img nm = some none →
      dir_find_free g st.L st.img = some (some slot) →
      (st.img (st.L.dir_start + slot / 2)).length = 128 →
      (cmd_create g st nm).2 = [48, 10] ∧
      (cmd_create g (cmd_create g st nm).1 nm).2 = [49, 10] := by
    intro slot h1 h31 hnz hfind0 hfs hbl
    have hnm2 : ¬ (nm.length = 0 ∨ nm.length ≥ 32) := by omega
    have hslot_lt : slot < st.L.dir_entries := by
      have hmem : slot ∈ List.range st.L.dir_entries := by
        apply dir_find_free_in_mem g st.L st.img
        unfold dir_find_free at hfs
        exact hfs
      exact List.mem_range.1 hmem
    have hdw := dir_write_entry_eq g st.L st.img slot
      ⟨pack_name nm, 0, FAT_EOF, 1⟩ hS (hdir slot hslot_lt) hbl
    have hc1 : cmd_create g st nm =
        (⟨upd st.img (st.L.dir_start + slot / 2)
            ((st.img (st.L.dir_start + slot / 2)).take (slot % 2 * 64) ++
              dirent_pack ⟨pack_name nm, 0, FAT_EOF, 1⟩ ++
              (st.img (st.L.dir_start + slot / 2)).drop (slot % 2 * 64 + 64)),
          st.L, some v, st.formatted⟩, [48, 10]) := by
      unfold cmd_create
      rw [if_neg hnm2, if_neg hfmt2, hens]
      dsimp only
      rw [hfind0]
      dsimp only
      rw [hfs]
      dsimp only
      rw [hdw]
    refine ⟨by rw [hc1], ?_⟩
    have hmatch : slotMatches st.L (cmd_create g st nm).1.img nm slot := by
      unfold slotMatches
      have hsb : slotBytes st.L (cmd_create g st nm).1.img slot =
          dirent_pack ⟨pack_name nm, 0, FAT_EOF, 1⟩ := by
        rw [hc1]
        exact slotBytes_write_self st.L st.img slot _ hbl
      have hup := dirent_unpack_pack ⟨pack_name nm, 0, FAT_EOF, 1⟩
        (pack_name_length nm)
      rw [hsb, hup]
      refine ⟨?_, ?_⟩
      · show (1 % 256 : Nat) ≠ 0
        decide
      show strncmp_eq ((pack_name nm).take 31 ++ [0]) nm 32 = true
      rw [pack_name_take31 nm hnz (by omega)]
      exact strncmp_self_padded nm (32 - nm.length) 32 hnz (by omega) (by omega)
    have hL1 : (cmd_create g st nm).1.L = st.L := by rw [hc1]
    have hfat1 : (cmd_create g st nm).1.fat = some v := by rw [hc1]
    have hfmt1 : ¬ ((cmd_create g st nm).1.formatted = false) := by
      rw [hc1]
      exact hfmt2
    have hens1 : fat_ensure g (cmd_create g st nm).1 = some v := by
      unfold fat_ensure
      rw [hfat1]
    rcases dir_find_in_cases g st.L (cmd_create g st nm).1.img nm hS
        (List.range st.L.dir_entries)
        (fun i hi => hdir i (List.mem_range.1 hi)) with
      ⟨-, hall⟩ | ⟨pre2, i2, post2, heq2, hpre2, hi2, hres2⟩
    · exact absurd hmatch (hall slot (List.mem_range.2 hslot_lt))
    · set st2 := (cmd_create g st nm).1 with hst2
      unfold cmd_create
      rw [if_neg hnm2, if_neg hfmt1, hens1]
      dsimp only
      rw [show dir_find_by_name g st2.L st2.img nm = some (some (i2,
            dirent_unpack (slotBytes st.L st2.img i2))) from by
        unfold dir_find_by_name
        rw [hL1]
        exact hres2]
  by_cases hnm : nm.length = 0 ∨ nm.length ≥ 32
  · refine ⟨?_, ?_, hpart3⟩
    · simp only [cmd_create, if_pos hnm]
      constructor
      · intro h; exact absurd h (by decide)
      · rintro ⟨h1, h2, -⟩
        omega
    · intro h
      simp only [cmd_create, if_pos hnm]
  · rcases dir_find_in_cases g st.L st.img nm hS (List.range st.L.dir_entries)
        (fun i hi => hdir i (List.mem_range.1 hi)) with
      ⟨hres, hall⟩ | ⟨pre, i, post, heq, hpre, hi, hres⟩
    · have hne : (cmd_create g st nm).2 ≠ [49, 10] := by
        unfold cmd_create
        rw [if_neg hnm, if_neg hfmt2, hens]
        dsimp only
        rw [show dir_find_by_name g st.L st.img nm = some none from hres]
        dsimp only
        rcases hr : dir_find_free g st.L st.img with _ | r2
        · simp
        · rcases r2 with _ | slot
          · simp
          · dsimp only
            rcases hw : dir_write_entry g st.L st.img slot
                ⟨pack_name nm, 0, FAT_EOF, 1⟩ with _ | img2
            · simp
            · simp
      refine ⟨?_, ?_, hpart3⟩
      · constructor
        · intro h; exact absurd h hne
        · rintro ⟨-, -, j, hj, hmj⟩
          exact absurd hmj (hall j (List.mem_range.2 hj))
      · intro h; exact absurd h hnm
    · have hfound : (cmd_create g st nm).2 = [49, 10] := by
        unfold cmd_create
        rw [if_neg hnm, if_neg hfmt2, hens]
        dsimp only
        rw [show dir_find_by_name g st.L st.img nm =
          some (some (i, dirent_unpack (slotBytes st.L st.img i))) from hres]
      refine ⟨?_, ?_, hpart3⟩
      · constructor
        · intro _
          have hmem : i ∈ List.range st.L.dir_entries := by
            rw [heq]; exact List.mem_append.2 (Or.inr (List.mem_cons_self _ _))
          exact ⟨by omega, by omega, i, List.mem_range.1 hmem, hi⟩
        · intro _; exact hfound
      · intro h; exact absurd h hnm

set_option maxRecDepth 16384 in
theorem claim_C4_witness :
    stA66.formatted = true ∧ stA66.fat = some fatEmpty66 ∧
      dir_find_by_name g66 stA66.L stA66.img [98] = some none ∧
      dir_find_free g66 stA66.L stA66.img = some (some 1) ∧
      (((cmd_create g66 stA66 [98]).2 = [49, 10] ↔
        (1 ≤ ([98] : List Nat).length ∧ ([98] : List Nat).length < 32 ∧
          ∃ i, i < stA66.L.dir_entries ∧ slotMatches stA66.L stA66.img [98] i)) ∧
      (([98] : List Nat).length = 0 ∨ 32 ≤ ([98] : List Nat).length →
        (cmd_create g66 stA66 [98]).2 = [50, 10])) ∧
      ((cmd_create g66 stA66 [98]).2 = [48, 10] ∧
        (cmd_create g66 (cmd_create g66 stA66 [98]).1 [98]).2 = [49, 10]) := by
  have h := claim_C4_create_exists_iff g66 stA66 [98] fatEmpty66
    (by decide) rfl rfl (by decide)
  exact ⟨rfl, rfl, by decide, by decide, ⟨h.1, h.2.1⟩,
    h.2.2 1 (by decide) (by decide) (by decide) (by decide) (by decide) (by decide)⟩

end FsSrv

namespace FsSrv

open DiskSrv

/-- The 8192-by-8192 disk: 2^26 blocks, no uint32 overflow in the layout
(4·N = 2^28), about 65 million FREE data blocks when freshly formatted. -/
def g28 : Geom := ⟨8192, 8192, 0⟩

/-- Layout of the 8192-by-8192 disk: FAT sectors 1..2097152, directory
sectors 2097153..2097184, data area from block 2097185. -/
def L28 : Layout := compute_layout g28

/-- FAT cache of the freshly formatted 8192-by-8192 disk: metadata blocks
RESERVED, every data block FREE. -/
def fatE28 : Nat → Nat := fun i => if i < 2097185 then FAT_RESERVED else FAT_FREE

/-- Disk image of the 8192-by-8192 disk holding one empty file named `a` in
directory slot 0; every other sector is zero. -/
def img28 : Img := fun i =>
  if i = 2097153 then
    dirent_pack ⟨pack_name [97], 0, FAT_EOF, 1⟩ ++ List.replicate 64 0
  else List.replicate 128 0

/-- Formatted 8192-by-8192 filesystem holding one empty file named `a`. -/
def stE28 : FsState := ⟨img28, L28, some fatE28, true⟩

/-- Helper: the FREE count of a threshold FAT (RESERVED below the data
start, FREE from it on) is the number of data blocks. -/
theorem countFree_threshold (L : Layout) (a : Nat) (v : Nat → Nat)
    (hv : ∀ i, v i = if i < a then FAT_RESERVED else FAT_FREE) :
    countFree L v a = L.total_blocks - a := by
  unfold countFree
  have hgen : ∀ n, ((List.range n).filter fun i =>
      decide (a ≤ i) && decide (v i = FAT_FREE)).length = n - a := by
    intro n
    induction n with
    | zero => simp
    | succ m ih =>
      rw [List.range_succ, List.filter_append, List.length_append, ih]
      by_cases hm : a ≤ m
      · have hvm : v m = FAT_FREE := by
          rw [hv m, if_neg (by omega)]
        have hone : List.filter (fun i =>
            decide (a ≤ i) && decide (v i = FAT_FREE)) [m] = [m] := by
          simp [hm, hvm]
        rw [hone]
        simp only [List.length_cons, List.length_nil]
        omega
      · have hnone : List.filter (fun i =>
            decide (a ≤ i) && decide (v i = FAT_FREE)) [m] = [] := by
          simp [hm]
        rw [hnone]
        simp only [List.length_nil]
        omega
  exact hgen L.total_blocks

end FsSrv


namespace FsSrv

open DiskSrv

/-- Helper: the length of the 2^32 − 1 byte payload. -/
theorem len_d28 : (List.replicate 4294967295 7 : List Nat).length = 4294967295 :=
  List.length_replicate 4294967295 7

/-- Helper: the data-writing loop returns immediately on an EOF head (the
empty chain the wrapped allocation produces). -/
theorem write_loop_eof (g : Geom) (v : Nat → Nat) (data : List Nat) :
    ∀ (f : Nat) (img : Img) (left pos : Nat),
    write_loop g v data (f + 1) img FAT_EOF left pos = some img := by
  intro f img left pos
  simp only [write_loop]
  first
  | rfl
  | rw [if_pos rfl]
  | exact if_pos rfl
  | exact if_pos trivial

/-- Helper: the chain walk of a read starting at EOF copies nothing and
leaves every requested byte uncopied. -/
theorem read_loop_eof (g : Geom) (v : Nat → Nat) :
    ∀ (f left : Nat) (imgX : Img) (acc : List Nat),
    read_loop g v (f + 1) imgX FAT_EOF left acc = some (acc, left) := by
  intro f left imgX acc
  simp only [read_loop]
  first
  | rfl
  | rw [if_neg (fun hc => hc.2 rfl)]
  | exact if_neg (fun hc => hc.2 rfl)

set_option maxRecDepth 16384 in
/-- Helper: with the wrapped block count 0, `write_whole_file` allocates
nothing, writes nothing, and succeeds with first = EOF and the full
2^32 − 1 length. -/
theorem wrap_write_whole_file : write_whole_file g28 stE28.L fatE28 stE28.img
    (dirent_unpack (slotBytes stE28.L stE28.img 0))
    (List.replicate 4294967295 7) =
    .ok fatE28 img28
      ⟨(dirent_unpack (slotBytes stE28.L stE28.img 0)).name,
        (List.replicate 4294967295 7 : List Nat).length, FAT_EOF,
        (dirent_unpack (slotBytes stE28.L stE28.img 0)).used⟩ := by
  unfold write_whole_file
  rw [len_d28]
  rw [if_neg (show ¬ ((dirent_unpack (slotBytes stE28.L stE28.img 0)).used ≠ 0 ∧
      (dirent_unpack (slotBytes stE28.L stE28.img 0)).first ≠ FAT_EOF) from
    by decide)]
  rw [if_neg (show ¬ ((4294967295 : Nat) = 0) from by decide)]
  dsimp only
  rw [show ((4294967295 : Nat) + 127) % U32M / 128 = 0 from by decide]
  rw [show alloc_loop stE28.L (dataStart stE28.L) fatE28 0 FAT_EOF FAT_EOF =
    .ok fatE28 FAT_EOF from rfl]
  dsimp only
  rw [show (4294967295 : Nat) + 2 = 4294967295 + 1 + 1 from by omega]
  rw [write_loop_eof]
  try rfl

/-- Helper: the chain walk of the read starts at EOF and copies nothing,
leaving all 2^32 − 1 requested bytes uncopied. -/
theorem wrap_read_loop : ∀ imgX : Img,
    (∀ b, dataStart stE28.L ≤ b → imgX b = img28 b) →
    read_loop g28 fatE28 ((List.replicate 4294967295 7 : List Nat).length + 1)
      imgX FAT_EOF (List.replicate 4294967295 7 : List Nat).length [] =
      some ([], (List.replicate 4294967295 7 : List Nat).length) :=
  fun imgX _ => read_loop_eof g28 fatE28
    (List.replicate 4294967295 7 : List Nat).length
    (List.replicate 4294967295 7 : List Nat).length imgX []

set_option maxRecDepth 16384 in
/-- Helper: the full `W` then `R` behavior on the 2^32 − 1 byte payload:
the write replies 0 and the read replies the length followed by only
zero-filled (never-written) bytes. -/
theorem wrap_write_read : (cmd_write g28 stE28 [97]
      (List.replicate 4294967295 7)).2 = [48, 10] ∧
    (cmd_read g28 (cmd_write g28 stE28 [97]
        (List.replicate 4294967295 7)).1 [97]).2 =
      [48, 32] ++ decBytes (List.replicate 4294967295 7 : List Nat).length ++
        [32] ++ (([] : List Nat) ++
          List.replicate (List.replicate 4294967295 7 : List Nat).length 0) ++
        [10] := by
  have hds : dataStart L28 = 2097185 := by decide
  have hfs2 : L28.fat_sectors = 2097152 := by decide
  have hfst : L28.fat_start = 1 := by decide
  have hds2 : L28.dir_start = 2097153 := by decide
  have hde : L28.dir_entries = 64 := by decide
  have hCS : g28.C * g28.S = 67108864 := by decide
  have hfatv : ∀ t, t < L28.fat_sectors → L28.fat_start + t < g28.C * g28.S := by
    intro t ht
    rw [hfs2] at ht
    rw [hfst, hCS]
    omega
  have hfd : ∀ t, t < L28.fat_sectors → ∀ i, i < L28.dir_entries →
      L28.fat_start + t ≠ L28.dir_start + i / 2 := by
    intro t ht i hi
    rw [hfs2] at ht
    rw [hfst, hds2]
    omega
  have hfdata : ∀ t, t < L28.fat_sectors → L28.fat_start + t < dataStart L28 := by
    intro t ht
    rw [hfs2] at ht
    rw [hfst, hds]
    omega
  have hdirdata : ∀ i, i < L28.dir_entries →
      L28.dir_start + i / 2 < dataStart L28 := by
    intro i hi
    rw [hde] at hi
    rw [hds2, hds]
    omega
  have hlenU : (List.replicate 4294967295 7 : List Nat).length % U32M =
      (List.replicate 4294967295 7 : List Nat).length := by
    rw [len_d28]
    decide
  exact cmd_write_read_tail g28 stE28 [97]
    (List.replicate 4294967295 7) fatE28 fatE28 0
    (dirent_unpack (slotBytes stE28.L stE28.img 0)) img28 FAT_EOF []
    (List.replicate 4294967295 7 : List Nat).length
    (by decide) rfl rfl (by decide) hfatv hfd hfdata hdirdata (by decide)
    (by decide) (by decide) (fun j hj => absurd hj (by omega)) rfl (by decide)
    (by decide) (by decide) hlenU (by decide) wrap_write_whole_file
    (fun j _ => rfl) wrap_read_loop

set_option maxRecDepth 16384 in
/-- Helper: the `R` reply after the wrapped `W` is the length header
followed by 2^32 − 1 zero bytes. -/
theorem wrap_read_reply : (cmd_read g28 (cmd_write g28 stE28 [97]
    (List.replicate 4294967295 7)).1 [97]).2 =
    [48, 32] ++ decBytes 4294967295 ++ [32] ++
      List.replicate 4294967295 0 ++ [10] := by
  have hrd2 := wrap_write_read.2
  rw [len_d28] at hrd2
  rw [List.nil_append] at hrd2
  exact hrd2

/-- Helper: byte 13 of the reply shape — two header bytes, a ten-digit
length, one space — is the first data byte. -/
theorem reply_getD13 (D B : List Nat) (c : Nat) (hD : D.length = 10) :
    ([48, 32] ++ D ++ [32] ++ (c :: B) ++ [10] : List Nat).getD 13 0 = c := by
  have hY : ([48, 32] ++ D ++ [32] : List Nat).length = 13 := by
    simp only [List.length_append, List.length_cons, List.length_nil]
    omega
  rw [List.getD_append _ _ _ _ (by
    simp only [List.length_append, List.length_cons, List.length_nil]
    omega)]
  rw [List.getD_append_right _ _ _ _ (by omega)]
  rw [show 13 - ([48, 32] ++ D ++ [32] : List Nat).length = 0 from by omega]
  rw [List.getD_cons_zero]

set_option maxRecDepth 16384 in
/-- Helper: byte 13 of the reply shape distinguishes the zero filling from
the written payload. -/
theorem wrap_reply_byte : ∀ c : Nat,
    ([48, 32] ++ decBytes 4294967295 ++ [32] ++
      List.replicate 4294967295 c ++ [10] : List Nat).getD 13 0 = c := by
  intro c
  have hsplit : (List.replicate 4294967295 c : List Nat) =
      c :: List.replicate 4294967294 c := by
    rw [show (4294967295 : Nat) = 4294967294 + 1 from by omega]
    exact List.replicate_succ c 4294967294
  rw [hsplit]
  exact reply_getD13 (decBytes 4294967295) (List.replicate 4294967294 c) c
    (by decide)

end FsSrv

namespace FsSrv

open DiskSrv

set_option maxRecDepth 16384 in
/-- Claim C1, counterexample: the claim's scope admits a payload of
2^32 − 1 bytes on the 8192-by-8192 disk, whose free pool satisfies
len(d) ≤ free_blocks · 128.  There the block-count computation
`(len + 127) / 128` wraps in `uint32_t` to 0, so `W` allocates nothing,
stores first = EOF with length 2^32 − 1, and still replies 0 — and the
subsequent `R` replies `0 4294967295 ` followed by 2^32 − 1 zero
(never-written) bytes instead of the payload, so the round trip fails. -/
theorem claim_C1_counterexample :
    (4294967295 + 127) % U32M / 128 = 0 ∧
    (List.replicate 4294967295 7 : List Nat).length ≤
      128 * countFree L28 fatE28 (dataStart L28) ∧
    dir_find_by_name g28 stE28.L stE28.img [97] =
      some (some (0, dirent_unpack (slotBytes stE28.L stE28.img 0))) ∧
    (cmd_write g28 stE28 [97] (List.replicate 4294967295 7)).2 = [48, 10] ∧
    (cmd_read g28 (cmd_write g28 stE28 [97]
        (List.replicate 4294967295 7)).1 [97]).2 =
      [48, 32] ++ decBytes 4294967295 ++ [32] ++
        List.replicate 4294967295 0 ++ [10] ∧
    (cmd_read g28 (cmd_write g28 stE28 [97]
        (List.replicate 4294967295 7)).1 [97]).2 ≠
      [48, 32] ++ decBytes (List.replicate 4294967295 7 : List Nat).length ++
        [32] ++ List.replicate 4294967295 7 ++ [10] := by
  refine ⟨by decide, ?_, by decide, wrap_write_read.1, wrap_read_reply, ?_⟩
  · have hds : dataStart L28 = 2097185 := by decide
    have hcf : countFree L28 fatE28 (dataStart L28) =
        L28.total_blocks - 2097185 := by
      rw [hds]
      exact countFree_threshold L28 2097185 fatE28 (fun i => rfl)
    rw [len_d28, hcf, show L28.total_blocks = 67108864 from by decide]
    norm_num
  · intro hcontra
    rw [wrap_read_reply, len_d28] at hcontra
    have h0 := wrap_reply_byte 0
    have h7 := wrap_reply_byte 7
    rw [hcontra] at h0
    rw [h7] at h0
    exact absurd h0 (by decide)

end FsSrv
